import Mathlib

/-!
Verification of the payload packetization/depacketization layer:
the RTP/MPEG-2-audio fragment reassembler (`Decoder.Decode`),
the RTP/AV1 unit packetizer (`Encoder.Encode`) and the
H264 NAL keyframe classifier (`rtpH264ContainsIDR`),
shallowly embedded from the Go sources.
Bytes are modelled as `Nat` (values below 256 on real inputs),
Go `int` fields that can go negative as `Int`.
-/

set_option maxRecDepth 8000

/-! ## Fragment reassembler (rtpmpeg2audio.Decoder) -/

/-- State of the RTP/MPEG-2 audio decoder (the fields of Go `Decoder`
that the reassembly algorithm reads and writes; the time decoder is
omitted since no claim mentions the returned duration). -/
structure DecoderState where
  firstPacketReceived : Bool
  fragments : List (List Nat)
  fragmentsSize : Nat
  fragmentsExpected : Int
  deriving DecidableEq

/-- The zero value of `Decoder`: the freshly-initialized state
(`Init` only sets the time decoder). -/
def initState : DecoderState :=
  { firstPacketReceived := false, fragments := [], fragmentsSize := 0,
    fragmentsExpected := 0 }

/-- The errors `Decode` can return, one constructor per `return` site.
`morePacketsNeeded` models `ErrMorePacketsNeeded`,
`nonStartingPacketAndNoPrevious` models `ErrNonStartingPacketAndNoPrevious`,
`frameHeaderError` models a failing `mpeg2audio.FrameHeader.Unmarshal`,
`loopDiverges` marks fuel exhaustion of the aggregation loop (unreachable
whenever the header parser only reports positive frame lengths). -/
inductive DecodeError
  | payloadTooShort
  | invalidMBZ
  | frameHeaderError
  | invalidPacket
  | morePacketsNeeded
  | nonStartingPacketAndNoPrevious
  | unexpectedOffset
  | fragmentTooBig
  | loopDiverges
  deriving DecidableEq

/-- Result of one `Decode` call: decoded frames or an error. -/
inductive DecodeResult
  | frames (frames : List (List Nat))
  | err (e : DecodeError)
  deriving DecidableEq

/-- Go `joinFragments`: allocates `size` zero bytes and copies the
fragments in order into it (so the result is truncated at `size`,
and zero-padded when the fragments hold fewer than `size` bytes). -/
def joinFragments (fragments : List (List Nat)) (size : Nat) : List Nat :=
  (fragments.flatten ++ List.replicate size 0).take size

/-- Result of the aggregation loop that runs in the `offset == 0`
branch of `Decode`. -/
inductive StartLoopResult
  | frames (frames : List (List Nat))
  | needMore (buf : List Nat) (bl fl : Nat)
  | headerErr
  | invalidPacket
  | diverged
  deriving DecidableEq

/-- The `for` loop of the `offset == 0` branch of `Decode`:
repeatedly parse a frame header (`parse buf` returns the header's
`FrameLen()`, `none` on an `Unmarshal` error), extract complete frames,
and on a trailing partial frame report the data needed to start
reassembly. `fuel` bounds the iteration count; it is never exhausted
when `parse` only returns positive lengths and is given one unit of
slack per byte of the initial buffer. -/
def decodeStartLoop (parse : List Nat → Option Nat) :
    Nat → List Nat → List (List Nat) → StartLoopResult
  | 0, _, _ => .diverged
  | fuel + 1, buf, frames =>
    match parse buf with
    | none => .headerErr
    | some fl =>
      if fl ≤ buf.length then
        let frames2 := frames ++ [buf.take fl]
        let buf2 := buf.drop fl
        if buf2.length = 0 then .frames frames2
        else decodeStartLoop parse fuel buf2 frames2
      else
        if frames ≠ [] then .invalidPacket
        else .needMore buf buf.length fl

/-- Go `Decoder.Decode`, embedded over a header parser `parse`
(standing for `mpeg2audio.FrameHeader.Unmarshal` followed by
`FrameLen()`, which live outside this repository).  Returns the state
after the call together with the result; the returned duration is
omitted (no claim mentions it). -/
def Decode (parse : List Nat → Option Nat) (d : DecoderState)
    (payload : List Nat) : DecoderState × DecodeResult :=
  match payload with
  | p0 :: p1 :: p2 :: p3 :: b0 :: rest =>
    let mbz := p0 * 256 + p1
    if mbz ≠ 0 then
      ({ d with fragments := [], fragmentsSize := 0 }, .err .invalidMBZ)
    else
      let offset := p2 * 256 + p3
      let buf := b0 :: rest
      if offset = 0 then
        let d1 : DecoderState :=
          { d with fragments := [], fragmentsSize := 0,
                   firstPacketReceived := true }
        match decodeStartLoop parse (buf.length + 1) buf [] with
        | .frames fs => (d1, .frames fs)
        | .headerErr => (d1, .err .frameHeaderError)
        | .invalidPacket => (d1, .err .invalidPacket)
        | .diverged => (d1, .err .loopDiverges)
        | .needMore pbuf bl fl =>
          ({ d1 with fragments := [pbuf], fragmentsSize := bl,
                     fragmentsExpected := (fl : Int) - (bl : Int) },
           .err .morePacketsNeeded)
      else
        if offset ≠ d.fragmentsSize then
          if d.firstPacketReceived = false then
            (d, .err .nonStartingPacketAndNoPrevious)
          else
            ({ d with fragments := [], fragmentsSize := 0 },
             .err .unexpectedOffset)
        else
          let bl := buf.length
          let newSize := d.fragmentsSize + bl
          let newExp := d.fragmentsExpected - (bl : Int)
          if newExp < 0 then
            ({ d with fragments := [], fragmentsSize := 0,
                      fragmentsExpected := newExp },
             .err .fragmentTooBig)
          else
            let frs := d.fragments ++ [buf]
            if 0 < newExp then
              ({ d with fragments := frs, fragmentsSize := newSize,
                        fragmentsExpected := newExp },
               .err .morePacketsNeeded)
            else
              ({ d with fragments := [], fragmentsSize := 0,
                        fragmentsExpected := newExp },
               .frames [joinFragments frs newSize])
  | _ =>
    ({ d with fragments := [], fragmentsSize := 0 }, .err .payloadTooShort)

/-- A constant frame-header parser, used to instantiate witnesses:
every buffer parses and declares frame length `n`. -/
def constParse (n : Nat) : List Nat → Option Nat := fun _ => some n

/-! ## Unit packetizer (rtpav1.Encoder) -/

/-- The RTP header fields `createNewPacket` fills in
(`rtp.Header`; extension fields that the encoder never touches are
omitted). -/
structure RtpHeader where
  version : Nat
  marker : Bool
  payloadType : Nat
  sequenceNumber : Nat
  timestamp : Nat
  ssrc : Nat
  deriving DecidableEq

/-- An RTP packet: header plus payload bytes. -/
structure RtpPacket where
  header : RtpHeader
  payload : List Nat
  deriving DecidableEq

/-- The RTP/AV1 encoder configuration and mutable counter
(`rtpav1.Encoder` after `Init`: `SSRC`, `InitialSequenceNumber` and
`PayloadMaxSize` resolved to concrete values; the time encoder is
modelled by passing the already-computed timestamp to `Encode`). -/
structure Encoder where
  payloadType : Nat
  ssrc : Nat
  payloadMaxSize : Nat
  sequenceNumber : Nat
  deriving DecidableEq

/-- Go `Encoder.Init`, with the ambient random source made explicit:
`randSSRC`/`randSeq` stand for the `randUint32()` draws used when the
optional fields are unset; `maxOpt = 0` means `PayloadMaxSize` unset
(defaulted to 1460). `InitialSequenceNumber` is a `uint16`, hence the
`% 65536` on the random draw. -/
def Encoder.init (payloadType : Nat) (ssrcOpt : Option Nat)
    (seqOpt : Option Nat) (maxOpt : Nat) (randSSRC randSeq : Nat) :
    Encoder :=
  { payloadType := payloadType,
    ssrc := ssrcOpt.getD randSSRC,
    payloadMaxSize := if maxOpt = 0 then 1460 else maxOpt,
    sequenceNumber := seqOpt.getD (randSeq % 65536) }

/-- Structural-recursion helper for `LEB128Marshal`: `fuel` only has
to dominate the number of 7-bit groups, and `fuel := n` always does
(the `fuel = 0` fallback is then reached only with `n < 128`, where it
agrees with the real encoding). -/
def LEB128MarshalAux : Nat → Nat → List Nat
  | 0, n => [n % 128]
  | fuel + 1, n =>
    if n < 128 then [n]
    else (n % 128 + 128) :: LEB128MarshalAux fuel (n / 128)

/-- Modelled from the spec: `av1.LEB128Marshal` (outside this
repository) encodes an integer length as a variable-length size
prefix — low 7-bit groups first, continuation bit `0x80` on every
group but the last. -/
def LEB128Marshal (n : Nat) : List Nat :=
  LEB128MarshalAux n n

/-- Go `createNewPacket(z)`: a fresh packet with RTP version 2, the
encoder's payload type / SSRC, the current sequence number (a
`uint16`), the call's timestamp, and a one-byte payload holding the
AV1 aggregation header, with bit 7 (`Z`) set when `z` is true. -/
def mkPacket (pt ts ssrc seq : Nat) (z : Bool) : RtpPacket :=
  { header := { version := 2, marker := false, payloadType := pt,
                sequenceNumber := seq % 65536, timestamp := ts,
                ssrc := ssrc },
    payload := [if z then 128 else 0] }

/-- `curPacket.Payload[0] |= v` (used for the `Y`, `Z` and keyframe
bits of the aggregation header). -/
def orFirstByte (v : Nat) (p : RtpPacket) : RtpPacket :=
  { p with payload :=
      match p.payload with
      | [] => []
      | b :: r => (b ||| v) :: r }

/-- `curPacket.Payload = append(curPacket.Payload, bs...)`. -/
def appendBytes (bs : List Nat) (p : RtpPacket) : RtpPacket :=
  { p with payload := p.payload ++ bs }

/-- The encoder's loop state: the packets already finalized (`done`),
the packet currently being filled (`cur` — Go keeps it at the end of
`packets` and mutates it through a pointer), its tracked payload
length `curPayloadLen`, and the sequence counter. -/
structure EncState where
  done : List RtpPacket
  cur : RtpPacket
  curPayloadLen : Nat
  seq : Nat
  deriving DecidableEq

/-- The `needed <= avail` branch of the inner `for` loop of `Encode`:
append the LEB128 length prefix and the whole OBU to the current
packet and advance `curPayloadLen`. -/
def placeWhole (obu : List Nat) (s : EncState) : EncState :=
  let le := LEB128Marshal obu.length
  { s with cur := appendBytes (le ++ obu) s.cur,
           curPayloadLen := s.curPayloadLen + le.length + obu.length }

/-- The `avail > 2` part of the fragmenting branch: the current packet
after the leading slice of the OBU (prefixed with its LEB128 length)
has been carved off into it; the packet is unchanged when at most two
bytes are available. -/
def fragCur (avail : Int) (obu : List Nat) (c : RtpPacket) : RtpPacket :=
  if 2 < avail then
    appendBytes
      (LEB128Marshal (avail - 2).toNat ++ obu.take (avail - 2).toNat) c
  else c

/-- The bytes of the OBU still to be placed after the fragmenting
branch (`obu = obu[fragmentLen:]`). -/
def fragRest (avail : Int) (obu : List Nat) : List Nat :=
  if 2 < avail then obu.drop ((avail - 2).toNat) else obu

/-- The state after `finalizeCurPacket(true); createNewPacket(true)`:
the current packet (with its carved-off fragment, if any) gets the `Y`
bit and joins the finished list, and a fresh packet with the `Z` bit
is started. -/
def fragStep (pt ts ssrc : Nat) (avail : Int) (obu : List Nat)
    (s : EncState) : EncState :=
  { done := s.done ++ [orFirstByte 64 (fragCur avail obu s.cur)],
    cur := mkPacket pt ts ssrc s.seq true,
    curPayloadLen := 1,
    seq := (s.seq + 1) % 65536 }

/-- The inner `for` loop of `Encode`, placing one OBU: append it whole
if the length prefix plus the OBU fits the available space, otherwise
carve off a fragment filling the packet (when more than 2 bytes are
available), finalize the current packet with the `Y` bit and continue
in a fresh packet with the `Z` bit. `fuel` bounds the iterations; for
`payloadMaxSize ≥ 4` a budget of `2 * obu.length + 3` is never
exhausted (for smaller sizes the Go loop itself never terminates). -/
def encodeObu (pt ts ssrc maxSize : Nat) :
    Nat → List Nat → EncState → Option EncState
  | 0, _, _ => none
  | fuel + 1, obu, s =>
    let avail : Int := (maxSize : Int) - (s.curPayloadLen : Int)
    let needed : Int := (obu.length : Int) + 2
    if needed ≤ avail then
      some (placeWhole obu s)
    else
      encodeObu pt ts ssrc maxSize fuel (fragRest avail obu)
        (fragStep pt ts ssrc avail obu s)

/-- The outer `for` loop of `Encode` over the OBU list. -/
def encodeObus (pt ts ssrc maxSize : Nat) :
    List (List Nat) → EncState → Option EncState
  | [], s => some s
  | obu :: rest, s =>
    match encodeObu pt ts ssrc maxSize (2 * obu.length + 3) obu s with
    | none => none
    | some s2 => encodeObus pt ts ssrc maxSize rest s2

/-- `packets[0].Payload[0] |= 1 << 3` when the OBU list contains a
keyframe; the identity otherwise. -/
def kfTransform (kf : Bool) (ps : List RtpPacket) : List RtpPacket :=
  if kf then
    match ps with
    | [] => []
    | p :: rest => orFirstByte 8 p :: rest
  else ps

/-- `packets[len(packets)-1].Marker = true`. -/
def setMarkerLast (ps : List RtpPacket) : List RtpPacket :=
  match ps with
  | [] => []
  | [p] => [{ p with header := { p.header with marker := true } }]
  | p :: q :: rest => p :: setMarkerLast (q :: rest)

/-- Go `Encoder.Encode`: packetizes `obus` into RTP packets.
`isKeyFrame` stands for the result of `av1.ContainsKeyFrame(obus)`
(outside this repository; an error there aborts `Encode` before any
packet is built, so it is not modelled), and `ts` for
`e.timeEncoder.Encode(pts)`.  Returns the packets together with the
encoder's sequence counter after the call, or `none` where the Go
loop never terminates. -/
def Encoder.Encode (e : Encoder) (isKeyFrame : Bool) (ts : Nat)
    (obus : List (List Nat)) : Option (List RtpPacket × Nat) :=
  let s0 : EncState :=
    { done := [],
      cur := mkPacket e.payloadType ts e.ssrc e.sequenceNumber false,
      curPayloadLen := 1,
      seq := (e.sequenceNumber + 1) % 65536 }
  match encodeObus e.payloadType ts e.ssrc e.payloadMaxSize obus s0 with
  | none => none
  | some s =>
    some (setMarkerLast (kfTransform isKeyFrame (s.done ++ [s.cur])), s.seq)

/-! ## NAL classifier (formats.rtpH264ContainsIDR) -/

/-- Structural-recursion helper for `rtpH264StapLoop`: the walked list
shrinks by at least one element per step, so any `fuel` at least the
list's length makes the `fuel = 0` fallback unreachable. -/
def rtpH264StapLoopAux : Nat → List Nat → Bool
  | _, [] => false
  | _, [_] => false
  | 0, _ :: _ :: _ => false
  | fuel + 1, s0 :: s1 :: rest =>
    let size := s0 * 256 + s1
    if size = 0 then false
    else if rest.length < size then false
    else if (rest.headD 0) &&& 31 = 5 then true
    else rtpH264StapLoopAux fuel (rest.drop size)

/-- The STAP-A `for` loop of `rtpH264ContainsIDR`: walk the 2-byte
big-endian size-prefixed NAL units, returning `true` at the first unit
of type 5 (IDR) and `false` on the end of the payload or on any bound
violation (size 0, fewer than 2 bytes for a size field, size beyond
the remaining bytes). -/
def rtpH264StapLoop (l : List Nat) : Bool :=
  rtpH264StapLoopAux l.length l

/-- Go `rtpH264ContainsIDR`: whether an RTP/H264 payload contains an
IDR NAL unit, without decoding the packet (`h264.NALUTypeIDR = 5`). -/
def rtpH264ContainsIDR (payload : List Nat) : Bool :=
  match payload with
  | [] => false
  | b0 :: rest =>
    let typ := b0 &&& 31
    if typ = 5 then true
    else if typ = 24 then rtpH264StapLoop rest
    else if typ = 28 then
      match rest with
      | [] => false
      | b1 :: _ =>
        if b1 >>> 7 ≠ 1 then false
        else if b1 &&& 31 = 5 then true else false
    else false

/-- Structural-recursion helper for `stapEntries` (same fuel
discipline as `rtpH264StapLoopAux`). -/
def stapEntriesAux : Nat → List Nat → List (List Nat)
  | _, [] => []
  | _, [_] => []
  | 0, _ :: _ :: _ => []
  | fuel + 1, s0 :: s1 :: rest =>
    let size := s0 * 256 + s1
    if size = 0 then []
    else if rest.length < size then []
    else rest.take size :: stapEntriesAux fuel (rest.drop size)

/-- Modelled from the spec: the list of complete STAP-A entries
obtained by walking the `{2-byte big-endian size, size-byte unit}`
sequence, stopping at the first bound violation. -/
def stapEntries (l : List Nat) : List (List Nat) :=
  stapEntriesAux l.length l

/-- Structural-recursion helper for `stapWalkViolates` (same fuel
discipline as `rtpH264StapLoopAux`). -/
def stapWalkViolatesAux : Nat → List Nat → Bool
  | _, [] => false
  | _, [_] => true
  | 0, _ :: _ :: _ => true
  | fuel + 1, s0 :: s1 :: rest =>
    let size := s0 * 256 + s1
    if size = 0 then true
    else if rest.length < size then true
    else stapWalkViolatesAux fuel (rest.drop size)

/-- Modelled from the spec: whether the STAP-A entry walk ends in a
bound violation (size 0, a truncated size field, or a size exceeding
the remaining bytes) rather than at the exact end of the payload. -/
def stapWalkViolates (l : List Nat) : Bool :=
  stapWalkViolatesAux l.length l

/-- Modelled from the spec: the claim C8 case split on the low 5 bits
of the first payload byte, stated independently of the code's control
flow — aggregation payloads are classified through `stapEntries`, and
fragmentation payloads through the start bit (`testBit 7`) of the
second byte. -/
def containsIDRSpec (payload : List Nat) : Bool :=
  match payload with
  | [] => false
  | b0 :: rest =>
    let typ := b0 &&& 31
    if typ = 24 then
      (stapEntries rest).any (fun n => decide (n.headD 0 &&& 31 = 5))
    else if typ = 28 then
      match rest with
      | [] => false
      | b1 :: _ => Nat.testBit b1 7 && decide (b1 &&& 31 = 5)
    else decide (typ = 5)

/-! ## Spec-side definitions used to state the claims -/

/-- The claim C5 / §3 reassembly-state invariant: the state is either
empty, or its first pending fragment begins with a frame header whose
self-declared length equals accumulated plus remaining bytes. -/
def stateInv (parse : List Nat → Option Nat) (s : DecoderState) : Prop :=
  (s.fragments = [] ∧ s.fragmentsSize = 0) ∨
  (∃ f fs fl, s.fragments = f :: fs ∧ parse f = some fl ∧
    (s.fragmentsSize : Int) + s.fragmentsExpected = (fl : Int))

/-- Claim C7 as stated: `Decode` rejects a packet as too short exactly
when its payload is shorter than the 4 header bytes; a payload of
length at least 4 with zero reserved bytes is never rejected for
insufficient length. -/
def claimC7 : Prop :=
  ∀ (parse : List Nat → Option Nat) (d : DecoderState) (payload : List Nat),
    (payload.length < 4 →
      Decode parse d payload =
        ({ d with fragments := [], fragmentsSize := 0 },
         .err .payloadTooShort)) ∧
    (4 ≤ payload.length → payload.headD 0 = 0 → payload.tail.headD 0 = 0 →
      (Decode parse d payload).2 ≠ .err .payloadTooShort)

/-- Claim C4 as stated: every packet of a successful `Encode` has a
payload no longer than the configured maximum, and when a single unit
larger than the maximum is fragmented, every packet but the last is
filled exactly to capacity. -/
def claimC4 : Prop :=
  ∀ (e : Encoder) (kf : Bool) (ts : Nat) (obus : List (List Nat))
    (ps : List RtpPacket) (q : Nat),
    Encoder.Encode e kf ts obus = some (ps, q) →
    (∀ p ∈ ps, p.payload.length ≤ e.payloadMaxSize) ∧
    (∀ obu, obus = [obu] → e.payloadMaxSize < obu.length →
      ∀ i (h : i < ps.length), i + 1 < ps.length →
        (ps.get ⟨i, h⟩).payload.length = e.payloadMaxSize)

/-- Modelled from the spec: decode one variable-length size prefix
(low 7-bit groups first, continuation bit `0x80`) from the front of a
byte list. -/
def leb128Decode : List Nat → Option (Nat × List Nat)
  | [] => none
  | b :: rest =>
    if b < 128 then some (b, rest)
    else
      match leb128Decode rest with
      | none => none
      | some (v, r) => some (b % 128 + 128 * v, r)

/-- Structural-recursion helper for `lastElemIncomplete` (each step
consumes at least the one-byte size prefix, so `fuel` at least the
list's length makes the `fuel = 0` fallback unreachable). -/
def lastElemIncompleteAux : Nat → List Nat → Bool
  | _, [] => false
  | 0, _ :: _ => false
  | fuel + 1, bytes =>
    match leb128Decode bytes with
    | none => false
    | some (size, rest) =>
      if rest.length < size then true
      else lastElemIncompleteAux fuel (rest.drop size)

/-- Modelled from the spec: walking the size-prefixed elements of an
AV1 aggregation payload (the bytes after the aggregation-header byte),
whether the final element's declared size exceeds the bytes present —
i.e. whether the packet's final payload element continues in the next
packet. -/
def lastElemIncomplete (l : List Nat) : Bool :=
  lastElemIncompleteAux l.length l

/-- Claim C6 as stated: on every successful `Encode`, the marker sits
on the last packet only; bit 3 of the aggregation header is set on the
first packet exactly when the keyframe predicate holds and on no other
packet; bit 6 is set exactly on packets whose final payload element
continues in the next packet; bit 7 exactly on packets that begin with
the continuation of a unit started in the previous packet. -/
def claimC6 : Prop :=
  ∀ (e : Encoder) (kf : Bool) (ts : Nat) (obus : List (List Nat))
    (ps : List RtpPacket) (q : Nat),
    Encoder.Encode e kf ts obus = some (ps, q) →
    ∀ i (h : i < ps.length),
      ((ps.get ⟨i, h⟩).header.marker = true ↔ i = ps.length - 1) ∧
      (Nat.testBit ((ps.get ⟨i, h⟩).payload.headD 0) 3 = true ↔
        (i = 0 ∧ kf = true)) ∧
      (Nat.testBit ((ps.get ⟨i, h⟩).payload.headD 0) 6 = true ↔
        lastElemIncomplete ((ps.get ⟨i, h⟩).payload.drop 1) = true) ∧
      (Nat.testBit ((ps.get ⟨i, h⟩).payload.headD 0) 7 = true ↔
        (∃ j, ∃ hj : j < ps.length, i = j + 1 ∧
          lastElemIncomplete ((ps.get ⟨j, hj⟩).payload.drop 1) = true))

/-- Header discipline of the packets built during one `Encode` call:
RTP version 2, the call's payload type, timestamp and SSRC, marker not
yet set, and sequence numbers consecutive modulo 2^16 from `seq0`. -/
def packetsOK (pt ts ssrc seq0 : Nat) (ps : List RtpPacket) : Prop :=
  ∀ i (h : i < ps.length),
    (ps.get ⟨i, h⟩).header.version = 2 ∧
    (ps.get ⟨i, h⟩).header.payloadType = pt ∧
    (ps.get ⟨i, h⟩).header.timestamp = ts ∧
    (ps.get ⟨i, h⟩).header.ssrc = ssrc ∧
    (ps.get ⟨i, h⟩).header.marker = false ∧
    (ps.get ⟨i, h⟩).header.sequenceNumber = (seq0 + i) % 65536

/-- Aggregation-header discipline of the state during one `Encode`
call: every finalized packet has first byte 64 (the first packet:
`Y` bit only) or 192 (`Z` and `Y`), and the packet being filled has
first byte 0 (first packet) or 128 (`Z` only). -/
def byteZeroOK (s : EncState) : Prop :=
  (∀ i (h : i < s.done.length),
    (s.done.get ⟨i, h⟩).payload ≠ [] ∧
    (s.done.get ⟨i, h⟩).payload.headD 0 = if i = 0 then 64 else 192) ∧
  s.cur.payload ≠ [] ∧
  s.cur.payload.headD 0 = (if s.done = [] then 0 else 128)

/-- Payload-size discipline of the state during one `Encode` call:
the tracked length matches the real payload length, stays between 1
and the configured maximum, and every finalized packet fits the
maximum. -/
def lensOK (maxSize : Nat) (s : EncState) : Prop :=
  s.cur.payload.length = s.curPayloadLen ∧
  1 ≤ s.curPayloadLen ∧ s.curPayloadLen ≤ maxSize ∧
  ∀ p ∈ s.done, p.payload.length ≤ maxSize

/-! ## Lemmas about the reassembly loop -/

theorem decodeStartLoop_needMore
    (parse : List Nat → Option Nat) (fuel : Nat) :
    ∀ buf frames pbuf bl fl,
      decodeStartLoop parse fuel buf frames = .needMore pbuf bl fl →
      parse pbuf = some fl ∧ bl = pbuf.length ∧ pbuf.length < fl := by
  induction fuel with
  | zero =>
    intro buf frames pbuf bl fl h
    simp [decodeStartLoop] at h
  | succ n ih =>
    intro buf frames pbuf bl fl h
    simp only [decodeStartLoop] at h
    cases hp : parse buf with
    | none => rw [hp] at h; simp at h
    | some l =>
      rw [hp] at h
      simp only at h
      split at h
      · split at h
        · simp at h
        · exact ih _ _ _ _ _ h
      · split at h
        · simp at h
        · cases h
          exact ⟨hp, rfl, by omega⟩

/-- One-step unfolding of `decodeStartLoop` on positive fuel. -/
theorem decodeStartLoop_succ (parse : List Nat → Option Nat) (fuel : Nat)
    (buf : List Nat) (frames : List (List Nat)) :
    decodeStartLoop parse (fuel + 1) buf frames =
      match parse buf with
      | none => .headerErr
      | some fl =>
        if fl ≤ buf.length then
          let frames2 := frames ++ [buf.take fl]
          let buf2 := buf.drop fl
          if buf2.length = 0 then .frames frames2
          else decodeStartLoop parse fuel buf2 frames2
        else
          if frames ≠ [] then .invalidPacket
          else .needMore buf buf.length fl := rfl

/-- `Decode` on a packet with zero reserved bytes and offset zero
runs the aggregation loop on a cleared state. -/
theorem Decode_start (parse : List Nat → Option Nat) (d : DecoderState)
    (b0 : Nat) (rest : List Nat) :
    Decode parse d (0 :: 0 :: 0 :: 0 :: b0 :: rest) =
      (let d1 : DecoderState :=
        { d with fragments := [], fragmentsSize := 0,
                 firstPacketReceived := true }
       match decodeStartLoop parse (rest.length + 1 + 1) (b0 :: rest) [] with
       | .frames fs => (d1, .frames fs)
       | .headerErr => (d1, .err .frameHeaderError)
       | .invalidPacket => (d1, .err .invalidPacket)
       | .diverged => (d1, .err .loopDiverges)
       | .needMore pbuf bl fl =>
         ({ d1 with fragments := [pbuf], fragmentsSize := bl,
                    fragmentsExpected := (fl : Int) - (bl : Int) },
          .err .morePacketsNeeded)) := rfl

/-- `joinFragments` of exactly two fragments whose lengths sum to the
requested size is their concatenation. -/
theorem joinFragments_two (a b : List Nat) (n : Nat)
    (h : a.length + b.length = n) : joinFragments [a, b] n = a ++ b := by
  simp only [joinFragments, List.flatten_cons, List.flatten_nil,
    List.append_nil, ← List.append_assoc]
  exact List.take_left' (by simp [h])

/-! ## Claim C1 -/

/-- C1: from the fresh state, a starting packet (zero reserved bytes,
offset 0) whose frame header declares length 200 but carries only 100
elementary-stream bytes yields `morePacketsNeeded` with those 100
bytes buffered and 100 bytes still expected; the follow-up packet with
offset 100 and the remaining 100 bytes yields exactly one 200-byte
frame, the byte-for-byte concatenation of the two packets'
elementary-stream bytes, and empties the reassembly state. -/
theorem c1_two_packet_reassembly (parse : List Nat → Option Nat)
    (buf1 buf2 : List Nat) (h1 : buf1.length = 100)
    (hp : parse buf1 = some 200) (h2 : buf2.length = 100) :
    Decode parse initState (0 :: 0 :: 0 :: 0 :: buf1) =
      ({ firstPacketReceived := true, fragments := [buf1],
         fragmentsSize := 100, fragmentsExpected := 100 },
       .err .morePacketsNeeded) ∧
    Decode parse
      { firstPacketReceived := true, fragments := [buf1],
        fragmentsSize := 100, fragmentsExpected := 100 }
      (0 :: 0 :: 0 :: 100 :: buf2) =
      ({ firstPacketReceived := true, fragments := [], fragmentsSize := 0,
         fragmentsExpected := 0 },
       .frames [buf1 ++ buf2]) := by
  constructor
  · cases buf1 with
    | nil => simp at h1
    | cons b bs =>
      rw [Decode_start, decodeStartLoop_succ, hp]
      have hle : ¬ (200 ≤ (b :: bs).length) := by omega
      simp only [if_neg hle, ne_eq, not_true_eq_false, if_neg,
        not_false_eq_true, if_true]
      simp [initState, h1]
  · cases buf2 with
    | nil => simp at h2
    | cons c cs =>
      have hcs : cs.length = 99 := by simpa using h2
      simp only [Decode]
      norm_num [hcs]
      rw [joinFragments_two _ _ _ (by simp [h1, hcs])]

/-- Witness for C1 at a concrete two-packet input. -/
theorem c1_two_packet_reassembly_witness :
    ((List.replicate 100 7 : List Nat).length = 100 ∧
     constParse 200 (List.replicate 100 7) = some 200 ∧
     (List.replicate 100 9 : List Nat).length = 100) ∧
    (Decode (constParse 200) initState
        (0 :: 0 :: 0 :: 0 :: List.replicate 100 7) =
      ({ firstPacketReceived := true, fragments := [List.replicate 100 7],
         fragmentsSize := 100, fragmentsExpected := 100 },
       .err .morePacketsNeeded) ∧
     Decode (constParse 200)
        { firstPacketReceived := true, fragments := [List.replicate 100 7],
          fragmentsSize := 100, fragmentsExpected := 100 }
        (0 :: 0 :: 0 :: 100 :: List.replicate 100 9) =
      ({ firstPacketReceived := true, fragments := [], fragmentsSize := 0,
         fragmentsExpected := 0 },
       .frames [List.replicate 100 7 ++ List.replicate 100 9])) :=
  ⟨⟨by decide, rfl, by decide⟩,
   c1_two_packet_reassembly (constParse 200) _ _ (by decide) rfl (by decide)⟩

/-! ## Claim C2 -/

/-- C2: whenever `Decode` returns a malformed-input error (payload too
short, non-zero reserved bytes, unparsable frame header, truncated
unit after a complete one), an out-of-sequence error, or an oversize
error, the state after the call has no pending fragments and a zero
accumulated byte count. -/
theorem c2_errors_reset (parse : List Nat → Option Nat) (d : DecoderState)
    (payload : List Nat) (d2 : DecoderState) (r : DecodeResult)
    (e : DecodeError) (hD : Decode parse d payload = (d2, r))
    (he : r = .err e)
    (hclass : e = .payloadTooShort ∨ e = .invalidMBZ ∨
      e = .frameHeaderError ∨ e = .invalidPacket ∨
      e = .unexpectedOffset ∨ e = .fragmentTooBig) :
    d2.fragments = [] ∧ d2.fragmentsSize = 0 := by
  subst he
  rcases payload with _ | ⟨p0, _ | ⟨p1, _ | ⟨p2, _ | ⟨p3, _ | ⟨b0, rest⟩⟩⟩⟩⟩ <;>
    simp only [Decode] at hD <;>
    repeat' split at hD
  all_goals
    first
    | (injection hD with h1 h2
       first
       | exact DecodeResult.noConfusion h2
       | (subst h1; exact ⟨rfl, rfl⟩)
       | (injection h2 with h3; subst h3; simp at hclass))

/-- Witness for C2 at a concrete non-zero-reserved-bytes input. -/
theorem c2_errors_reset_witness :
    (Decode (constParse 1) initState [1, 0, 0, 0, 5] =
      ({ firstPacketReceived := false, fragments := [], fragmentsSize := 0,
         fragmentsExpected := 0 }, .err .invalidMBZ)) ∧
    (({ firstPacketReceived := false, fragments := [], fragmentsSize := 0,
        fragmentsExpected := 0 } : DecoderState).fragments = [] ∧
     ({ firstPacketReceived := false, fragments := [], fragmentsSize := 0,
        fragmentsExpected := 0 } : DecoderState).fragmentsSize = 0) :=
  ⟨by decide,
   c2_errors_reset (constParse 1) initState [1, 0, 0, 0, 5] _ _ .invalidMBZ
     (by decide) rfl (Or.inr (Or.inl rfl))⟩

/-! ## Claim C3 -/

/-- C3: on a packet with zero reserved bytes whose non-zero offset
differs from the accumulated size, `Decode` fails with
`nonStartingPacketAndNoPrevious` leaving the state untouched when no
starting packet was ever received, and resets the reassembly state and
fails with `unexpectedOffset` when one was. -/
theorem c3_offset_mismatch (parse : List Nat → Option Nat)
    (d : DecoderState) (p2 p3 b0 : Nat) (rest : List Nat)
    (hoff : p2 * 256 + p3 ≠ 0) (hne : p2 * 256 + p3 ≠ d.fragmentsSize) :
    (d.firstPacketReceived = false →
      Decode parse d (0 :: 0 :: p2 :: p3 :: b0 :: rest) =
        (d, .err .nonStartingPacketAndNoPrevious)) ∧
    (d.firstPacketReceived = true →
      Decode parse d (0 :: 0 :: p2 :: p3 :: b0 :: rest) =
        ({ d with fragments := [], fragmentsSize := 0 },
         .err .unexpectedOffset)) := by
  constructor <;> intro hf <;> simp [Decode, hoff, hne, hf]

/-- Witness for C3 at a concrete mid-stream packet on the fresh
state. -/
theorem c3_offset_mismatch_witness :
    ((0 : Nat) * 256 + 1 ≠ 0 ∧ (0 : Nat) * 256 + 1 ≠ initState.fragmentsSize) ∧
    ((initState.firstPacketReceived = false →
      Decode (constParse 1) initState (0 :: 0 :: 0 :: 1 :: 9 :: []) =
        (initState, .err .nonStartingPacketAndNoPrevious)) ∧
     (initState.firstPacketReceived = true →
      Decode (constParse 1) initState (0 :: 0 :: 0 :: 1 :: 9 :: []) =
        ({ initState with fragments := [], fragmentsSize := 0 },
         .err .unexpectedOffset))) :=
  ⟨⟨by decide, by decide⟩,
   c3_offset_mismatch (constParse 1) initState 0 1 9 [] (by decide) (by decide)⟩

/-! ## Claim C5 -/

/-- C5: every `Decode` call, on every input and every result,
preserves the reassembly-state invariant — the state is either empty
or satisfies accumulated + remaining = declared length of the frame
whose header (at the head of the first pending fragment) initiated the
reassembly. -/
theorem c5_invariant_preserved (parse : List Nat → Option Nat)
    (d : DecoderState) (payload : List Nat) (h : stateInv parse d) :
    stateInv parse (Decode parse d payload).1 := by
  rcases payload with _ | ⟨p0, _ | ⟨p1, _ | ⟨p2, _ | ⟨p3, _ | ⟨b0, rest⟩⟩⟩⟩⟩ <;>
    simp only [Decode]
  · exact Or.inl ⟨rfl, rfl⟩
  · exact Or.inl ⟨rfl, rfl⟩
  · exact Or.inl ⟨rfl, rfl⟩
  · exact Or.inl ⟨rfl, rfl⟩
  · exact Or.inl ⟨rfl, rfl⟩
  · split
    · exact Or.inl ⟨rfl, rfl⟩
    · split
      · split
        · exact Or.inl ⟨rfl, rfl⟩
        · exact Or.inl ⟨rfl, rfl⟩
        · exact Or.inl ⟨rfl, rfl⟩
        · exact Or.inl ⟨rfl, rfl⟩
        · rename_i pbuf bl fl heq
          obtain ⟨hp, hbl, hlt⟩ :=
            decodeStartLoop_needMore parse _ _ _ _ _ _ heq
          refine Or.inr ⟨pbuf, [], fl, rfl, hp, ?_⟩
          subst hbl
          show ((pbuf.length : Nat) : Int) +
            ((fl : Int) - (pbuf.length : Int)) = (fl : Int)
          omega
      · rename_i hoffne hoffeq
        split
        · split
          · exact h
          · exact Or.inl ⟨rfl, rfl⟩
        · rename_i hoffmatch
          have hoffv : p2 * 256 + p3 = d.fragmentsSize := not_not.mp hoffmatch
          split
          · exact Or.inl ⟨rfl, rfl⟩
          · split
            · rcases h with ⟨hfnil, hs0⟩ | ⟨f, fs, fl, hfr, hp, hsum⟩
              · exact absurd (hoffv.trans hs0) hoffeq
              · refine Or.inr ⟨f, fs ++ [b0 :: rest], fl, ?_, hp, ?_⟩
                · show d.fragments ++ [b0 :: rest] = f :: (fs ++ [b0 :: rest])
                  rw [hfr]
                  rfl
                · show ((d.fragmentsSize + (b0 :: rest).length : Nat) : Int) +
                    (d.fragmentsExpected - ((b0 :: rest).length : Int)) = (fl : Int)
                  push_cast
                  omega
            · exact Or.inl ⟨rfl, rfl⟩

/-- Witness for C5: the invariant holds of the fresh state and is
preserved through a concrete starting packet. -/
theorem c5_invariant_preserved_witness :
    stateInv (constParse 3) initState ∧
    stateInv (constParse 3)
      (Decode (constParse 3) initState [0, 0, 0, 0, 1]).1 :=
  ⟨Or.inl ⟨rfl, rfl⟩,
   c5_invariant_preserved (constParse 3) initState [0, 0, 0, 0, 1]
     (Or.inl ⟨rfl, rfl⟩)⟩

/-! ## Claim C7 -/

/-- C7 counterexample: the claim is false as stated — the payload
`[0,0,0,0]` has the full 4 header bytes and zero reserved bytes, yet
`Decode` rejects it as too short (the Go check is `len < 5`, not
`len < 4`). -/
theorem c7_counterexample : ¬ claimC7 := by
  intro h
  exact (h (constParse 1) initState [0, 0, 0, 0]).2
    (by decide) (by decide) (by decide) (by decide)

/-- C7 amended: `Decode` rejects a packet as too short exactly when
its payload is shorter than 5 bytes (4 header bytes plus at least one
elementary-stream byte); any such payload fails with the
malformed-input too-short error and clears the fragment state, while a
payload of length at least 5 with zero reserved bytes is never
rejected for insufficient length. -/
theorem c7_amended (parse : List Nat → Option Nat) (d : DecoderState)
    (payload : List Nat) :
    (payload.length < 5 →
      Decode parse d payload =
        ({ d with fragments := [], fragmentsSize := 0 },
         .err .payloadTooShort)) ∧
    (5 ≤ payload.length → payload.headD 0 = 0 → payload.tail.headD 0 = 0 →
      (Decode parse d payload).2 ≠ .err .payloadTooShort) := by
  constructor
  · intro hlen
    rcases payload with _ | ⟨p0, _ | ⟨p1, _ | ⟨p2, _ | ⟨p3, _ | ⟨b0, rest⟩⟩⟩⟩⟩
    · rfl
    · rfl
    · rfl
    · rfl
    · rfl
    · simp only [List.length_cons] at hlen
      omega
  · intro hlen h0 h1
    rcases payload with _ | ⟨p0, _ | ⟨p1, _ | ⟨p2, _ | ⟨p3, _ | ⟨b0, rest⟩⟩⟩⟩⟩ <;>
      simp at hlen h0 h1 ⊢
    subst h0
    subst h1
    simp only [Decode]
    norm_num
    repeat' split
    all_goals simp

/-- Witness for the amended C7 at concrete short and long inputs. -/
theorem c7_amended_witness :
    (([0, 0, 0, 0] : List Nat).length < 5 ∧
     Decode (constParse 1) initState [0, 0, 0, 0] =
       ({ initState with fragments := [], fragmentsSize := 0 },
        .err .payloadTooShort)) ∧
    (5 ≤ ([0, 0, 0, 0, 9] : List Nat).length ∧
     (Decode (constParse 1) initState [0, 0, 0, 0, 9]).2 ≠
       .err .payloadTooShort) :=
  ⟨⟨by decide,
    (c7_amended (constParse 1) initState [0, 0, 0, 0]).1 (by decide)⟩,
   ⟨by decide,
    (c7_amended (constParse 1) initState [0, 0, 0, 0, 9]).2
      (by decide) (by decide) (by decide)⟩⟩

/-! ## Lemmas about the STAP-A walk -/

/-- The head of a non-trivial `take` is the head of the list. -/
theorem headD_take (l : List Nat) (k : Nat) (hk : k ≠ 0) (hl : l ≠ []) :
    (l.take k).headD 0 = l.headD 0 := by
  cases l with
  | nil => exact absurd rfl hl
  | cons a as =>
    cases k with
    | zero => exact absurd rfl hk
    | succ m => simp [List.take_succ_cons]

/-- The code's STAP-A loop finds an IDR exactly when one of the
entries collected before any bound violation is of IDR type. -/
theorem stapLoopAux_eq_entries (fuel : Nat) :
    ∀ l : List Nat, l.length ≤ fuel →
      rtpH264StapLoopAux fuel l =
        (stapEntriesAux fuel l).any
          (fun n => decide (n.headD 0 &&& 31 = 5)) := by
  induction fuel with
  | zero =>
    intro l hl
    rcases l with _ | ⟨x, _ | ⟨y, rest⟩⟩
    · rfl
    · rfl
    · simp at hl
  | succ n ih =>
    intro l hl
    rcases l with _ | ⟨x, _ | ⟨y, rest⟩⟩
    · rfl
    · rfl
    · have hll : rest.length + 2 ≤ n + 1 := by
        simpa using hl
      simp only [rtpH264StapLoopAux, stapEntriesAux]
      split_ifs with hsz hlen hr
      · rfl
      · rfl
      · have hne : rest ≠ [] := by
          intro h
          rw [h] at hlen
          simp at hlen
          omega
        rw [List.any_cons]
        have hb : decide ((List.take (x * 256 + y) rest).headD 0 &&& 31 = 5) =
            true := by
          rw [headD_take rest (x * 256 + y) hsz hne]
          exact decide_eq_true hr
        rw [hb]
        simp
      · have hne : rest ≠ [] := by
          intro h
          rw [h] at hlen
          simp at hlen
          omega
        rw [List.any_cons]
        have hb : decide ((List.take (x * 256 + y) rest).headD 0 &&& 31 = 5) =
            false := by
          rw [headD_take rest (x * 256 + y) hsz hne]
          exact decide_eq_false hr
        rw [hb, Bool.false_or]
        apply ih
        simp only [List.length_drop]
        omega

/-! ## Claim C8 -/

/-- C8: `rtpH264ContainsIDR` implements the claimed case split on the
low 5 bits of the first payload byte — single-unit payloads are IDR
iff the type is 5, aggregation payloads (24) iff the entry walk finds
an IDR entry before any bound violation, fragmentation payloads (28)
iff the start bit of the second byte is set and its low 5 bits are 5,
and everything else is never IDR. -/
theorem c8_classifier_case_split (payload : List Nat)
    (hbytes : ∀ b ∈ payload, b < 256) :
    rtpH264ContainsIDR payload = containsIDRSpec payload := by
  cases payload with
  | nil => rfl
  | cons b0 rest =>
    by_cases t5 : b0 &&& 31 = 5
    · simp [rtpH264ContainsIDR, containsIDRSpec, t5]
    · by_cases t24 : b0 &&& 31 = 24
      · simp only [rtpH264ContainsIDR, containsIDRSpec, t24, t5]
        norm_num
        simp only [rtpH264StapLoop, stapEntries]
        have := stapLoopAux_eq_entries rest.length rest le_rfl
        simpa using this
      · by_cases t28 : b0 &&& 31 = 28
        · simp only [rtpH264ContainsIDR, containsIDRSpec, t28, t5, t24]
          norm_num
          cases rest with
          | nil => rfl
          | cons b1 tail =>
            have hb1 : b1 < 256 := hbytes b1 (by simp)
            have h7 : b1 >>> 7 = b1 / 128 := by
              rw [Nat.shiftRight_eq_div_pow]
            have htb : Nat.testBit b1 7 = decide (b1 / 128 % 2 = 1) := by
              rw [Nat.testBit_to_div_mod]
            by_cases hstart : b1 / 128 = 1
            · by_cases h5 : b1 &&& 31 = 5 <;>
                simp [h7, htb, hstart, h5]
            · have h0 : b1 / 128 = 0 := by omega
              simp [h7, htb, h0, hstart]
        · simp [rtpH264ContainsIDR, containsIDRSpec, t5, t24, t28]

/-- Witness for C8 at a concrete start-fragment IDR payload. -/
theorem c8_classifier_case_split_witness :
    (∀ b ∈ ([28, 133] : List Nat), b < 256) ∧
    rtpH264ContainsIDR [28, 133] = containsIDRSpec [28, 133] :=
  ⟨by decide, c8_classifier_case_split [28, 133] (by decide)⟩

/-! ## Claim C9 -/

/-- C9: the classifier is a total boolean function (the embedding is a
total Lean function; every array access in the Go code is guarded) and
malformed inputs yield `false`: the empty payload, an aggregation
payload whose entry walk hits a bound violation before finding an IDR
entry, and a fragmentation payload shorter than 2 bytes. -/
theorem c9_malformed_false :
    rtpH264ContainsIDR [] = false ∧
    (∀ b0 rest, b0 &&& 31 = 24 → stapWalkViolates rest = true →
      (stapEntries rest).all (fun n => !decide (n.headD 0 &&& 31 = 5)) =
        true →
      rtpH264ContainsIDR (b0 :: rest) = false) ∧
    (∀ b0, b0 &&& 31 = 28 → rtpH264ContainsIDR [b0] = false) := by
  refine ⟨rfl, ?_, ?_⟩
  · intro b0 rest t24 _hviol hall
    have t5 : ¬(b0 &&& 31 = 5) := by rw [t24]; decide
    simp only [rtpH264ContainsIDR, t24, t5]
    norm_num
    simp only [rtpH264StapLoop]
    rw [stapLoopAux_eq_entries rest.length rest le_rfl]
    simp only [stapEntries] at hall
    simp only [List.any_eq_false]
    intro n hn
    have := List.all_eq_true.mp hall n hn
    simpa using this
  · intro b0 t28
    have t5 : ¬(b0 &&& 31 = 5) := by rw [t28]; decide
    have t24 : ¬(b0 &&& 31 = 24) := by rw [t28]; decide
    simp [rtpH264ContainsIDR, t28, t5, t24]

/-- Witness for C9 at concrete malformed aggregation and
fragmentation payloads. -/
theorem c9_malformed_false_witness :
    ((24 : Nat) &&& 31 = 24 ∧ stapWalkViolates [0, 0] = true ∧
     (stapEntries [0, 0]).all (fun n => !decide (n.headD 0 &&& 31 = 5)) =
       true ∧
     rtpH264ContainsIDR [24, 0, 0] = false) ∧
    ((28 : Nat) &&& 31 = 28 ∧ rtpH264ContainsIDR [28] = false) :=
  ⟨⟨by decide, by decide, by decide,
    c9_malformed_false.2.1 24 [0, 0] (by decide) (by decide) (by decide)⟩,
   ⟨by decide, c9_malformed_false.2.2 28 (by decide)⟩⟩

/-! ## Lemmas about the packet-building operations -/

theorem orFirstByte_header (v : Nat) (p : RtpPacket) :
    (orFirstByte v p).header = p.header := rfl

theorem appendBytes_header (bs : List Nat) (p : RtpPacket) :
    (appendBytes bs p).header = p.header := rfl

theorem fragCur_header (avail : Int) (obu : List Nat) (c : RtpPacket) :
    (fragCur avail obu c).header = c.header := by
  unfold fragCur
  split <;> rfl

theorem appendBytes_payload (bs : List Nat) (p : RtpPacket) :
    (appendBytes bs p).payload = p.payload ++ bs := rfl

theorem orFirstByte_payload_length (v : Nat) (p : RtpPacket) :
    (orFirstByte v p).payload.length = p.payload.length := by
  cases hp : p.payload <;> simp [orFirstByte, hp]

theorem appendBytes_ne_nil (bs : List Nat) (p : RtpPacket)
    (h : p.payload ≠ []) : (appendBytes bs p).payload ≠ [] := by
  cases hp : p.payload
  · exact absurd hp h
  · simp [appendBytes, hp]

theorem appendBytes_headD (bs : List Nat) (p : RtpPacket)
    (h : p.payload ≠ []) :
    (appendBytes bs p).payload.headD 0 = p.payload.headD 0 := by
  cases hp : p.payload
  · exact absurd hp h
  · simp [appendBytes, hp]

theorem orFirstByte_ne_nil (v : Nat) (p : RtpPacket)
    (h : p.payload ≠ []) : (orFirstByte v p).payload ≠ [] := by
  cases hp : p.payload
  · exact absurd hp h
  · simp [orFirstByte, hp]

theorem orFirstByte_headD (v : Nat) (p : RtpPacket)
    (h : p.payload ≠ []) :
    (orFirstByte v p).payload.headD 0 = p.payload.headD 0 ||| v := by
  cases hp : p.payload
  · exact absurd hp h
  · simp [orFirstByte, hp]

theorem fragCur_ne_nil (avail : Int) (obu : List Nat) (c : RtpPacket)
    (h : c.payload ≠ []) : (fragCur avail obu c).payload ≠ [] := by
  unfold fragCur
  split
  · exact appendBytes_ne_nil _ _ h
  · exact h

theorem fragCur_headD (avail : Int) (obu : List Nat) (c : RtpPacket)
    (h : c.payload ≠ []) :
    (fragCur avail obu c).payload.headD 0 = c.payload.headD 0 := by
  unfold fragCur
  split
  · exact appendBytes_headD _ _ h
  · rfl

theorem get_append_lt {α : Type _} (d : List α) (c : α) (i : Nat)
    (h : i < d.length) (h2 : i < (d ++ [c]).length) :
    (d ++ [c]).get ⟨i, h2⟩ = d.get ⟨i, h⟩ := by
  induction d generalizing i with
  | nil => simp at h
  | cons a tl ih =>
    cases i with
    | zero => rfl
    | succ j => exact ih j (by simpa using h) (by simpa using h2)

theorem get_append_last {α : Type _} (d : List α) (c : α)
    (h2 : d.length < (d ++ [c]).length) :
    (d ++ [c]).get ⟨d.length, h2⟩ = c := by
  induction d with
  | nil => rfl
  | cons a tl ih => exact ih (by simp)

/-! ## LEB128 length lemmas -/

theorem LEB128MarshalAux_small (fuel n : Nat) (h : n < 128) :
    LEB128MarshalAux fuel n = [n] := by
  cases fuel with
  | zero => simp [LEB128MarshalAux, Nat.mod_eq_of_lt h]
  | succ m => simp [LEB128MarshalAux, h]

theorem LEB128Marshal_small (n : Nat) (h : n < 128) :
    LEB128Marshal n = [n] :=
  LEB128MarshalAux_small n n h

theorem LEB128Marshal_two (n : Nat) (h1 : 128 ≤ n) (h2 : n < 16384) :
    (LEB128Marshal n).length = 2 := by
  obtain ⟨k, hk⟩ : ∃ k, n = k + 1 := ⟨n - 1, by omega⟩
  unfold LEB128Marshal
  rw [hk]
  simp only [LEB128MarshalAux, if_neg (by omega : ¬ (k + 1 < 128))]
  rw [LEB128MarshalAux_small k ((k + 1) / 128) (by omega)]
  rfl

theorem LEB128Marshal_length_le_two (n : Nat) (h : n < 16384) :
    (LEB128Marshal n).length ≤ 2 := by
  by_cases h1 : n < 128
  · rw [LEB128Marshal_small n h1]
    simp
  · rw [LEB128Marshal_two n (by omega) h]

/-! ## Header-discipline lemmas for the packetizer -/

theorem packetsOK_snoc (pt ts ssrc seq0 : Nat) (ps : List RtpPacket)
    (p : RtpPacket) (hps : packetsOK pt ts ssrc seq0 ps)
    (h1 : p.header.version = 2) (h2 : p.header.payloadType = pt)
    (h3 : p.header.timestamp = ts) (h4 : p.header.ssrc = ssrc)
    (h5 : p.header.marker = false)
    (h6 : p.header.sequenceNumber = (seq0 + ps.length) % 65536) :
    packetsOK pt ts ssrc seq0 (ps ++ [p]) := by
  intro i h
  by_cases hi : i < ps.length
  · rw [get_append_lt ps p i hi h]
    exact hps i hi
  · have hie : i = ps.length := by
      simp only [List.length_append, List.length_cons, List.length_nil] at h
      omega
    subst hie
    rw [get_append_last ps p h]
    exact ⟨h1, h2, h3, h4, h5, h6⟩

theorem packetsOK_set_last (pt ts ssrc seq0 : Nat) (ps : List RtpPacket)
    (c c' : RtpPacket) (hh : c'.header = c.header)
    (hps : packetsOK pt ts ssrc seq0 (ps ++ [c])) :
    packetsOK pt ts ssrc seq0 (ps ++ [c']) := by
  intro i h
  by_cases hi : i < ps.length
  · rw [get_append_lt ps c' i hi h]
    have := hps i (by simp only [List.length_append]; omega)
    rw [get_append_lt ps c i hi] at this
    exact this
  · have hie : i = ps.length := by
      simp only [List.length_append, List.length_cons, List.length_nil] at h
      omega
    subst hie
    rw [get_append_last ps c' h, hh]
    have := hps ps.length (by simp)
    rw [get_append_last ps c (by simp)] at this
    exact this

theorem packetsOK_orHead (pt ts ssrc seq0 : Nat) (p : RtpPacket)
    (rest : List RtpPacket) (v : Nat)
    (h : packetsOK pt ts ssrc seq0 (p :: rest)) :
    packetsOK pt ts ssrc seq0 (orFirstByte v p :: rest) := by
  intro i hi
  cases i with
  | zero =>
    have := h 0 (by simp)
    simpa [List.get, orFirstByte_header] using this
  | succ j =>
    exact h (j + 1) (by simpa using hi)

/-- One-step unfolding of `encodeObu` on positive fuel. -/
theorem encodeObu_succ (pt ts ssrc maxSize fuel : Nat) (obu : List Nat)
    (s : EncState) :
    encodeObu pt ts ssrc maxSize (fuel + 1) obu s =
      (if ((obu.length : Int) + 2) ≤
          ((maxSize : Int) - (s.curPayloadLen : Int)) then
        some (placeWhole obu s)
      else
        encodeObu pt ts ssrc maxSize fuel
          (fragRest ((maxSize : Int) - (s.curPayloadLen : Int)) obu)
          (fragStep pt ts ssrc ((maxSize : Int) - (s.curPayloadLen : Int))
            obu s)) := rfl

theorem encodeObu_packetsOK (pt ts ssrc maxSize seq0 : Nat) :
    ∀ (fuel : Nat) (obu : List Nat) (s s' : EncState),
      encodeObu pt ts ssrc maxSize fuel obu s = some s' →
      packetsOK pt ts ssrc seq0 (s.done ++ [s.cur]) →
      s.seq = (seq0 + s.done.length + 1) % 65536 →
      packetsOK pt ts ssrc seq0 (s'.done ++ [s'.cur]) ∧
      s'.seq = (seq0 + s'.done.length + 1) % 65536 := by
  intro fuel
  induction fuel with
  | zero =>
    intro obu s s' h hok hseq
    simp [encodeObu] at h
  | succ n ih =>
    intro obu s s' h hok hseq
    rw [encodeObu_succ] at h
    split at h
    · injection h with h'
      subst h'
      exact ⟨packetsOK_set_last pt ts ssrc seq0 s.done _ _
        (appendBytes_header _ _) hok, hseq⟩
    · refine ih _ _ _ h ?_ ?_
      · have step1 : packetsOK pt ts ssrc seq0
            (s.done ++ [orFirstByte 64
              (fragCur ((maxSize : Int) - (s.curPayloadLen : Int)) obu
                s.cur)]) :=
          packetsOK_set_last pt ts ssrc seq0 s.done _ _
            (by rw [orFirstByte_header, fragCur_header]) hok
        refine packetsOK_snoc pt ts ssrc seq0 _ _ step1 rfl rfl rfl rfl
          rfl ?_
        simp only [fragStep, mkPacket, List.length_append, List.length_cons,
          List.length_nil]
        omega
      · show (s.seq + 1) % 65536 =
          (seq0 + (fragStep pt ts ssrc _ obu s).done.length + 1) % 65536
        simp only [fragStep, List.length_append, List.length_cons,
          List.length_nil]
        omega

theorem encodeObus_packetsOK (pt ts ssrc maxSize seq0 : Nat) :
    ∀ (obus : List (List Nat)) (s s' : EncState),
      encodeObus pt ts ssrc maxSize obus s = some s' →
      packetsOK pt ts ssrc seq0 (s.done ++ [s.cur]) →
      s.seq = (seq0 + s.done.length + 1) % 65536 →
      packetsOK pt ts ssrc seq0 (s'.done ++ [s'.cur]) ∧
      s'.seq = (seq0 + s'.done.length + 1) % 65536 := by
  intro obus
  induction obus with
  | nil =>
    intro s s' h hok hseq
    simp only [encodeObus, Option.some.injEq] at h
    subst h
    exact ⟨hok, hseq⟩
  | cons obu rest ih =>
    intro s s' h hok hseq
    simp only [encodeObus] at h
    cases he : encodeObu pt ts ssrc maxSize (2 * obu.length + 3) obu s with
    | none => rw [he] at h; simp at h
    | some s2 =>
      rw [he] at h
      obtain ⟨hok2, hseq2⟩ :=
        encodeObu_packetsOK pt ts ssrc maxSize seq0 _ _ _ _ he hok hseq
      exact ih s2 s' h hok2 hseq2

/-! ## Lemmas about the final marker and keyframe transforms -/

theorem setMarkerLast_length (ps : List RtpPacket) :
    (setMarkerLast ps).length = ps.length := by
  induction ps with
  | nil => rfl
  | cons p rest ih =>
    cases rest with
    | nil => rfl
    | cons q rest2 =>
      show (p :: setMarkerLast (q :: rest2)).length =
        (p :: q :: rest2).length
      simp [ih]

theorem setMarkerLast_get (ps : List RtpPacket) :
    ∀ i (h : i < ps.length) (h2 : i < (setMarkerLast ps).length),
      (setMarkerLast ps).get ⟨i, h2⟩ =
        (if i = ps.length - 1 then
          { ps.get ⟨i, h⟩ with
            header := { (ps.get ⟨i, h⟩).header with marker := true } }
        else ps.get ⟨i, h⟩) := by
  induction ps with
  | nil =>
    intro i h
    simp at h
  | cons p rest ih =>
    intro i h h2
    cases rest with
    | nil =>
      have hi : i = 0 := by
        simp only [List.length_cons, List.length_nil] at h
        omega
      subst hi
      rfl
    | cons q rest2 =>
      cases i with
      | zero =>
        rw [if_neg (by simp only [List.length_cons]; omega)]
        rfl
      | succ j =>
        have hj : j < (q :: rest2).length := by simpa using h
        have hj2 : j < (setMarkerLast (q :: rest2)).length := by
          rw [setMarkerLast_length]
          exact hj
        have hstep : (setMarkerLast (p :: q :: rest2)).get ⟨j + 1, h2⟩ =
            (setMarkerLast (q :: rest2)).get ⟨j, hj2⟩ := rfl
        rw [hstep, ih j hj hj2]
        by_cases hjl : j = (q :: rest2).length - 1
        · rw [if_pos hjl,
            if_pos (by simp only [List.length_cons] at hjl ⊢; omega)]
          rfl
        · rw [if_neg hjl,
            if_neg (by simp only [List.length_cons] at hjl ⊢; omega)]
          rfl

theorem kfTransform_length (kf : Bool) (ps : List RtpPacket) :
    (kfTransform kf ps).length = ps.length := by
  unfold kfTransform
  split
  · cases ps <;> simp
  · rfl

theorem kfTransform_get_zero (kf : Bool) (p : RtpPacket)
    (rest : List RtpPacket)
    (h : 0 < (kfTransform kf (p :: rest)).length) :
    (kfTransform kf (p :: rest)).get ⟨0, h⟩ =
      (if kf then orFirstByte 8 p else p) := by
  cases kf <;> rfl

theorem kfTransform_get_succ (kf : Bool) (p : RtpPacket)
    (rest : List RtpPacket) (j : Nat)
    (h : j + 1 < (kfTransform kf (p :: rest)).length)
    (h2 : j < rest.length) :
    (kfTransform kf (p :: rest)).get ⟨j + 1, h⟩ = rest.get ⟨j, h2⟩ := by
  cases kf <;> rfl

theorem kfTransform_get_header (kf : Bool) (ps : List RtpPacket) (i : Nat)
    (h1 : i < (kfTransform kf ps).length) (h2 : i < ps.length) :
    ((kfTransform kf ps).get ⟨i, h1⟩).header = (ps.get ⟨i, h2⟩).header := by
  cases ps with
  | nil => simp at h2
  | cons P REST =>
    cases i with
    | zero =>
      rw [kfTransform_get_zero kf P REST h1]
      cases kf
      · rfl
      · rw [if_pos rfl, orFirstByte_header]
        rfl
    | succ j =>
      rw [kfTransform_get_succ kf P REST j h1 (by simpa using h2)]
      rfl

/-! ## Claim C10 -/

/-- C10: every successful `Encode` returns at least one packet; the
packets carry consecutive sequence numbers modulo 2^16 starting at the
encoder's counter, which advances by exactly the number of packets
emitted; all packets share the call's timestamp, the encoder's SSRC
and payload type, and RTP version 2; and `Init` starts the counter at
`InitialSequenceNumber` when it is supplied. -/
theorem c10_packet_headers (e : Encoder) (kf : Bool) (ts : Nat)
    (obus : List (List Nat)) (ps : List RtpPacket) (q : Nat)
    (hE : Encoder.Encode e kf ts obus = some (ps, q)) :
    0 < ps.length ∧
    (∀ i (h : i < ps.length),
      (ps.get ⟨i, h⟩).header.version = 2 ∧
      (ps.get ⟨i, h⟩).header.payloadType = e.payloadType ∧
      (ps.get ⟨i, h⟩).header.timestamp = ts ∧
      (ps.get ⟨i, h⟩).header.ssrc = e.ssrc ∧
      (ps.get ⟨i, h⟩).header.sequenceNumber =
        (e.sequenceNumber + i) % 65536) ∧
    q = (e.sequenceNumber + ps.length) % 65536 ∧
    (∀ (ptv m r1 r2 s0 : Nat) (sO : Option Nat),
      (Encoder.init ptv sO (some s0) m r1 r2).sequenceNumber = s0) := by
  simp only [Encoder.Encode] at hE
  cases hs : encodeObus e.payloadType ts e.ssrc e.payloadMaxSize obus
      { done := [],
        cur := mkPacket e.payloadType ts e.ssrc e.sequenceNumber false,
        curPayloadLen := 1,
        seq := (e.sequenceNumber + 1) % 65536 } with
  | none => rw [hs] at hE; simp at hE
  | some s =>
    rw [hs] at hE
    simp only [Option.some.injEq, Prod.mk.injEq] at hE
    obtain ⟨hps, hq⟩ := hE
    subst hps
    subst hq
    obtain ⟨hok, hseq⟩ :=
      encodeObus_packetsOK e.payloadType ts e.ssrc e.payloadMaxSize
        e.sequenceNumber obus _ s hs
        (by
          intro i h
          have hi : i = 0 := by
            simp only [List.nil_append, List.length_cons,
              List.length_nil] at h
            omega
          subst hi
          refine ⟨rfl, rfl, rfl, rfl, rfl, ?_⟩
          show e.sequenceNumber % 65536 = (e.sequenceNumber + 0) % 65536
          omega)
        (by
          show (e.sequenceNumber + 1) % 65536 =
            (e.sequenceNumber + 0 + 1) % 65536
          omega)
    have hlen : ∀ kf2 : Bool,
        (setMarkerLast (kfTransform kf2 (s.done ++ [s.cur]))).length =
          s.done.length + 1 := by
      intro kf2
      rw [setMarkerLast_length, kfTransform_length]
      simp
    refine ⟨?_, ?_, ?_, ?_⟩
    · rw [hlen]
      omega
    · intro i h
      have h1 : i < (kfTransform kf (s.done ++ [s.cur])).length := by
        rw [setMarkerLast_length] at h
        exact h
      have h2 : i < (s.done ++ [s.cur]).length := by
        rw [kfTransform_length] at h1
        exact h1
      rw [setMarkerLast_get _ i h1 h]
      have hfields :=
        kfTransform_get_header kf (s.done ++ [s.cur]) i h1 h2
      obtain ⟨hv, hpt, hts, hss, _hmk, hsq⟩ := hok i h2
      split
      · refine ⟨?_, ?_, ?_, ?_, ?_⟩ <;>
          simp only [hfields, hv, hpt, hts, hss, hsq]
      · refine ⟨?_, ?_, ?_, ?_, ?_⟩ <;>
          simp only [hfields, hv, hpt, hts, hss, hsq]
    · rw [hlen]
      omega
    · intro ptv m r1 r2 s0 sO
      rfl

/-- Witness for C10 at a concrete one-OBU call with a wrapping
sequence counter. -/
theorem c10_packet_headers_witness :
    (Encoder.Encode
        { payloadType := 96, ssrc := 7, payloadMaxSize := 1460,
          sequenceNumber := 65535 } false 42 [[1, 2, 3]] =
      some ([{ header := { version := 2, marker := true,
                           payloadType := 96, sequenceNumber := 65535,
                           timestamp := 42, ssrc := 7 },
               payload := [0, 3, 1, 2, 3] }], 0)) ∧
    (0 < ([{ header := { version := 2, marker := true, payloadType := 96,
                         sequenceNumber := 65535, timestamp := 42,
                         ssrc := 7 },
             payload := [0, 3, 1, 2, 3] }] : List RtpPacket).length ∧
     (∀ i (h : i < ([{ header := { version := 2, marker := true,
                                   payloadType := 96,
                                   sequenceNumber := 65535,
                                   timestamp := 42, ssrc := 7 },
                       payload := [0, 3, 1, 2, 3] }] :
          List RtpPacket).length),
       (([{ header := { version := 2, marker := true, payloadType := 96,
                        sequenceNumber := 65535, timestamp := 42,
                        ssrc := 7 },
            payload := [0, 3, 1, 2, 3] }] : List RtpPacket).get
          ⟨i, h⟩).header.version = 2 ∧
       (([{ header := { version := 2, marker := true, payloadType := 96,
                        sequenceNumber := 65535, timestamp := 42,
                        ssrc := 7 },
            payload := [0, 3, 1, 2, 3] }] : List RtpPacket).get
          ⟨i, h⟩).header.payloadType =
         ({ payloadType := 96, ssrc := 7, payloadMaxSize := 1460,
            sequenceNumber := 65535 } : Encoder).payloadType ∧
       (([{ header := { version := 2, marker := true, payloadType := 96,
                        sequenceNumber := 65535, timestamp := 42,
                        ssrc := 7 },
            payload := [0, 3, 1, 2, 3] }] : List RtpPacket).get
          ⟨i, h⟩).header.timestamp = 42 ∧
       (([{ header := { version := 2, marker := true, payloadType := 96,
                        sequenceNumber := 65535, timestamp := 42,
                        ssrc := 7 },
            payload := [0, 3, 1, 2, 3] }] : List RtpPacket).get
          ⟨i, h⟩).header.ssrc =
         ({ payloadType := 96, ssrc := 7, payloadMaxSize := 1460,
            sequenceNumber := 65535 } : Encoder).ssrc ∧
       (([{ header := { version := 2, marker := true, payloadType := 96,
                        sequenceNumber := 65535, timestamp := 42,
                        ssrc := 7 },
            payload := [0, 3, 1, 2, 3] }] : List RtpPacket).get
          ⟨i, h⟩).header.sequenceNumber = (65535 + i) % 65536) ∧
     0 = (65535 + ([{ header := { version := 2, marker := true,
                                  payloadType := 96,
                                  sequenceNumber := 65535,
                                  timestamp := 42, ssrc := 7 },
                      payload := [0, 3, 1, 2, 3] }] :
        List RtpPacket).length) % 65536 ∧
     (∀ (ptv m r1 r2 s0 : Nat) (sO : Option Nat),
       (Encoder.init ptv sO (some s0) m r1 r2).sequenceNumber = s0)) :=
  ⟨by decide,
   c10_packet_headers
     { payloadType := 96, ssrc := 7, payloadMaxSize := 1460,
       sequenceNumber := 65535 } false 42 [[1, 2, 3]] _ 0 (by decide)⟩

/-! ## Aggregation-header-discipline lemmas for the packetizer -/

theorem encodeObu_byteZeroOK (pt ts ssrc maxSize : Nat) :
    ∀ (fuel : Nat) (obu : List Nat) (s s' : EncState),
      encodeObu pt ts ssrc maxSize fuel obu s = some s' →
      byteZeroOK s → byteZeroOK s' := by
  intro fuel
  induction fuel with
  | zero =>
    intro obu s s' h hz
    simp [encodeObu] at h
  | succ n ih =>
    intro obu s s' h hz
    obtain ⟨hdone, hcne, hchead⟩ := hz
    rw [encodeObu_succ] at h
    split at h
    · injection h with h'
      subst h'
      refine ⟨hdone, appendBytes_ne_nil _ _ hcne, ?_⟩
      show (appendBytes (LEB128Marshal obu.length ++ obu)
        s.cur).payload.headD 0 = _
      rw [appendBytes_headD _ _ hcne]
      exact hchead
    · refine ih _ _ _ h ⟨?_, ?_, ?_⟩
      · intro i hi
        simp only [fragStep] at hi ⊢
        by_cases hlt : i < s.done.length
        · rw [get_append_lt s.done _ i hlt hi]
          exact hdone i hlt
        · have hie : i = s.done.length := by
            simp only [List.length_append, List.length_cons,
              List.length_nil] at hi
            omega
          subst hie
          rw [get_append_last s.done _ hi]
          have hfne : (fragCur ((maxSize : Int) - (s.curPayloadLen : Int))
              obu s.cur).payload ≠ [] := fragCur_ne_nil _ _ _ hcne
          refine ⟨orFirstByte_ne_nil _ _ hfne, ?_⟩
          rw [orFirstByte_headD _ _ hfne, fragCur_headD _ _ _ hcne,
            hchead]
          by_cases hnil : s.done = []
          · rw [if_pos hnil, if_pos (by rw [hnil]; rfl)]
            decide
          · rw [if_neg hnil,
              if_neg (by
                intro h0
                exact hnil (List.length_eq_zero.mp h0))]
            decide
      · simp [fragStep, mkPacket]
      · simp [fragStep, mkPacket]

theorem encodeObus_byteZeroOK (pt ts ssrc maxSize : Nat) :
    ∀ (obus : List (List Nat)) (s s' : EncState),
      encodeObus pt ts ssrc maxSize obus s = some s' →
      byteZeroOK s → byteZeroOK s' := by
  intro obus
  induction obus with
  | nil =>
    intro s s' h hz
    simp only [encodeObus, Option.some.injEq] at h
    subst h
    exact hz
  | cons obu rest ih =>
    intro s s' h hz
    simp only [encodeObus] at h
    cases he : encodeObu pt ts ssrc maxSize (2 * obu.length + 3) obu s with
    | none => rw [he] at h; simp at h
    | some s2 =>
      rw [he] at h
      exact ih s2 s' h (encodeObu_byteZeroOK pt ts ssrc maxSize _ _ _ _ he hz)

theorem setMarkerLast_get_payload (ps : List RtpPacket) (i : Nat)
    (h : i < ps.length) (h2 : i < (setMarkerLast ps).length) :
    ((setMarkerLast ps).get ⟨i, h2⟩).payload = (ps.get ⟨i, h⟩).payload := by
  rw [setMarkerLast_get ps i h h2]
  split <;> rfl

theorem setMarkerLast_get_marker (ps : List RtpPacket) (i : Nat)
    (h : i < ps.length) (h2 : i < (setMarkerLast ps).length)
    (hfalse : (ps.get ⟨i, h⟩).header.marker = false) :
    (((setMarkerLast ps).get ⟨i, h2⟩).header.marker = true ↔
      i = ps.length - 1) := by
  rw [setMarkerLast_get ps i h h2]
  split
  · rename_i hpos
    simpa using hpos
  · rename_i hneg
    simp only [List.get_eq_getElem] at hfalse
    simp [hfalse, hneg]

theorem kfTransform_headD (kf : Bool) (ps : List RtpPacket) (i : Nat)
    (h1 : i < (kfTransform kf ps).length) (h2 : i < ps.length)
    (hne : (ps.get ⟨i, h2⟩).payload ≠ []) :
    ((kfTransform kf ps).get ⟨i, h1⟩).payload.headD 0 =
      (ps.get ⟨i, h2⟩).payload.headD 0 |||
        (if i = 0 ∧ kf = true then 8 else 0) := by
  cases ps with
  | nil => simp at h2
  | cons P REST =>
    cases i with
    | zero =>
      rw [kfTransform_get_zero kf P REST h1]
      cases kf
      · simp
      · have hne2 : P.payload ≠ [] := hne
        rw [if_pos rfl, orFirstByte_headD _ _ hne2]
        simp
    | succ j =>
      rw [kfTransform_get_succ kf P REST j h1 (by simpa using h2)]
      simp

theorem testBit_flags (P1 P2 P3 : Prop) [Decidable P1] [Decidable P2]
    [Decidable P3] :
    (Nat.testBit ((if P1 then 128 else 0) + (if P2 then 64 else 0) +
      (if P3 then 8 else 0)) 7 = true ↔ P1) ∧
    (Nat.testBit ((if P1 then 128 else 0) + (if P2 then 64 else 0) +
      (if P3 then 8 else 0)) 6 = true ↔ P2) ∧
    (Nat.testBit ((if P1 then 128 else 0) + (if P2 then 64 else 0) +
      (if P3 then 8 else 0)) 3 = true ↔ P3) := by
  by_cases h1 : P1 <;> by_cases h2 : P2 <;> by_cases h3 : P3 <;>
    simp [h1, h2, h3]
  all_goals decide

theorem lor_flags (P1 P2 P3 : Prop) [Decidable P1] [Decidable P2]
    [Decidable P3] :
    ((if P1 then 128 else 0) + (if P2 then 64 else 0)) |||
      (if P3 then 8 else 0) =
    (if P1 then 128 else 0) + (if P2 then 64 else 0) +
      (if P3 then 8 else 0) := by
  by_cases h1 : P1 <;> by_cases h2 : P2 <;> by_cases h3 : P3 <;>
    simp [h1, h2, h3]

/-! ## Claim C6 -/

/-- C6 amended: on every successful `Encode`, the transport marker is
set on the last packet and on no other; bit 3 of the aggregation
header is set on the first packet exactly when the keyframe predicate
holds and on no other packet; bit 6 is set exactly on every packet
except the last (whether or not its final element is actually
fragmented); and bit 7 exactly on every packet except the first
(whether or not it actually begins with a continuation). -/
theorem c6_amended (e : Encoder) (kf : Bool) (ts : Nat)
    (obus : List (List Nat)) (ps : List RtpPacket) (q : Nat)
    (hE : Encoder.Encode e kf ts obus = some (ps, q)) :
    ∀ i (h : i < ps.length),
      ((ps.get ⟨i, h⟩).header.marker = true ↔ i = ps.length - 1) ∧
      ((ps.get ⟨i, h⟩).payload.headD 0 =
        (if 0 < i then 128 else 0) +
        (if i + 1 < ps.length then 64 else 0) +
        (if i = 0 ∧ kf = true then 8 else 0)) ∧
      (Nat.testBit ((ps.get ⟨i, h⟩).payload.headD 0) 3 = true ↔
        (i = 0 ∧ kf = true)) ∧
      (Nat.testBit ((ps.get ⟨i, h⟩).payload.headD 0) 6 = true ↔
        i + 1 < ps.length) ∧
      (Nat.testBit ((ps.get ⟨i, h⟩).payload.headD 0) 7 = true ↔
        0 < i) := by
  simp only [Encoder.Encode] at hE
  cases hs : encodeObus e.payloadType ts e.ssrc e.payloadMaxSize obus
      { done := [],
        cur := mkPacket e.payloadType ts e.ssrc e.sequenceNumber false,
        curPayloadLen := 1,
        seq := (e.sequenceNumber + 1) % 65536 } with
  | none => rw [hs] at hE; simp at hE
  | some s =>
    rw [hs] at hE
    simp only [Option.some.injEq, Prod.mk.injEq] at hE
    obtain ⟨hps, hq⟩ := hE
    subst hps
    have hbz : byteZeroOK s :=
      encodeObus_byteZeroOK e.payloadType ts e.ssrc e.payloadMaxSize
        obus _ s hs
        ⟨by intro i hi; simp at hi,
         by simp [mkPacket],
         by simp [mkPacket]⟩
    obtain ⟨hok, -⟩ :=
      encodeObus_packetsOK e.payloadType ts e.ssrc e.payloadMaxSize
        e.sequenceNumber obus _ s hs
        (by
          intro i hi
          have hi0 : i = 0 := by
            simp only [List.nil_append, List.length_cons,
              List.length_nil] at hi
            omega
          subst hi0
          refine ⟨rfl, rfl, rfl, rfl, rfl, ?_⟩
          show e.sequenceNumber % 65536 = (e.sequenceNumber + 0) % 65536
          omega)
        (by
          show (e.sequenceNumber + 1) % 65536 =
            (e.sequenceNumber + 0 + 1) % 65536
          omega)
    have hLlen : (s.done ++ [s.cur]).length = s.done.length + 1 := by simp
    have hL : ∀ i (h2 : i < (s.done ++ [s.cur]).length),
        ((s.done ++ [s.cur]).get ⟨i, h2⟩).payload ≠ [] ∧
        ((s.done ++ [s.cur]).get ⟨i, h2⟩).payload.headD 0 =
          (if 0 < i then 128 else 0) +
          (if i + 1 < (s.done ++ [s.cur]).length then 64 else 0) := by
      intro i h2
      by_cases hlt : i < s.done.length
      · rw [get_append_lt s.done _ i hlt h2]
        obtain ⟨hne, hv⟩ := hbz.1 i hlt
        refine ⟨hne, ?_⟩
        rw [hv]
        have hi1 : i + 1 < (s.done ++ [s.cur]).length := by
          rw [hLlen]
          omega
        rw [if_pos hi1]
        by_cases h0 : i = 0
        · simp [h0]
        · simp [h0, Nat.pos_of_ne_zero h0]
      · have hie : i = s.done.length := by
          rw [hLlen] at h2
          omega
        subst hie
        rw [get_append_last s.done _ h2]
        refine ⟨hbz.2.1, ?_⟩
        rw [hbz.2.2]
        have hnlt : ¬ (s.done.length + 1 < (s.done ++ [s.cur]).length) := by
          rw [hLlen]
          omega
        rw [if_neg hnlt]
        by_cases hnil : s.done = []
        · simp [hnil]
        · simp [hnil, List.length_pos.mpr hnil]
    intro i h
    have h1 : i < (kfTransform kf (s.done ++ [s.cur])).length := by
      rw [setMarkerLast_length] at h
      exact h
    have h2 : i < (s.done ++ [s.cur]).length := by
      rw [kfTransform_length] at h1
      exact h1
    have hlen2 :
        (setMarkerLast (kfTransform kf (s.done ++ [s.cur]))).length =
          (s.done ++ [s.cur]).length := by
      rw [setMarkerLast_length, kfTransform_length]
    have hmrk : ((kfTransform kf (s.done ++ [s.cur])).get
        ⟨i, h1⟩).header.marker = false := by
      rw [kfTransform_get_header kf _ i h1 h2]
      exact (hok i h2).2.2.2.2.1
    have hmarker := setMarkerLast_get_marker
      (kfTransform kf (s.done ++ [s.cur])) i h1 h hmrk
    have hpl := setMarkerLast_get_payload
      (kfTransform kf (s.done ++ [s.cur])) i h1 h
    have hkfh := kfTransform_headD kf (s.done ++ [s.cur]) i h1 h2
      (hL i h2).1
    have hbyte : ((setMarkerLast (kfTransform kf
        (s.done ++ [s.cur]))).get ⟨i, h⟩).payload.headD 0 =
        (if 0 < i then 128 else 0) +
        (if i + 1 < (setMarkerLast (kfTransform kf
          (s.done ++ [s.cur]))).length then 64 else 0) +
        (if i = 0 ∧ kf = true then 8 else 0) := by
      rw [hpl, hkfh, (hL i h2).2, lor_flags, hlen2]
    refine ⟨?_, ?_, ?_, ?_, ?_⟩
    · conv_rhs => rw [setMarkerLast_length]
      exact hmarker
    · exact hbyte
    · rw [hbyte]
      exact (testBit_flags _ _ _).2.2
    · rw [hbyte]
      exact (testBit_flags _ _ _).2.1
    · rw [hbyte]
      exact (testBit_flags _ _ _).1

/-- C6 counterexample: with maximum payload size 10 and OBUs of sizes
5, 1 and 1, the first emitted packet ends with a complete
length-prefixed element (nothing in it is fragmented), yet the code
sets its bit 6 — because `finalizeCurPacket(true)` runs even when no
fragment was carved off — so bit 6 is not "final payload element
continues in the next packet", refuting the claim as stated. -/
theorem c6_counterexample : ¬ claimC6 := by
  intro hc
  have h6 := (hc
    { payloadType := 0, ssrc := 0, payloadMaxSize := 10,
      sequenceNumber := 0 } false 0 [[1, 1, 1, 1, 1], [7], [9]]
    [{ header := { version := 2, marker := false, payloadType := 0,
                   sequenceNumber := 0, timestamp := 0, ssrc := 0 },
       payload := [64, 5, 1, 1, 1, 1, 1, 1, 7] },
     { header := { version := 2, marker := true, payloadType := 0,
                   sequenceNumber := 1, timestamp := 0, ssrc := 0 },
       payload := [128, 1, 9] }] 2
    (by decide) 0 (by decide)).2.2.1
  exact absurd h6 (by decide)

/-- Witness for the amended C6 at a concrete keyframe call. -/
theorem c6_amended_witness :
    (Encoder.Encode
        { payloadType := 96, ssrc := 7, payloadMaxSize := 1460,
          sequenceNumber := 65535 } true 42 [[1, 2, 3]] =
      some ([{ header := { version := 2, marker := true,
                           payloadType := 96, sequenceNumber := 65535,
                           timestamp := 42, ssrc := 7 },
               payload := [8, 3, 1, 2, 3] }], 0)) ∧
    (∀ i (h : i < ([{ header := { version := 2, marker := true,
                                  payloadType := 96,
                                  sequenceNumber := 65535,
                                  timestamp := 42, ssrc := 7 },
                      payload := [8, 3, 1, 2, 3] }] :
        List RtpPacket).length),
      ((([{ header := { version := 2, marker := true, payloadType := 96,
                        sequenceNumber := 65535, timestamp := 42,
                        ssrc := 7 },
            payload := [8, 3, 1, 2, 3] }] : List RtpPacket).get
          ⟨i, h⟩).header.marker = true ↔
        i = ([{ header := { version := 2, marker := true,
                            payloadType := 96, sequenceNumber := 65535,
                            timestamp := 42, ssrc := 7 },
                payload := [8, 3, 1, 2, 3] }] :
          List RtpPacket).length - 1) ∧
      ((([{ header := { version := 2, marker := true, payloadType := 96,
                        sequenceNumber := 65535, timestamp := 42,
                        ssrc := 7 },
            payload := [8, 3, 1, 2, 3] }] : List RtpPacket).get
          ⟨i, h⟩).payload.headD 0 =
        (if 0 < i then 128 else 0) +
        (if i + 1 < ([{ header := { version := 2, marker := true,
                                    payloadType := 96,
                                    sequenceNumber := 65535,
                                    timestamp := 42, ssrc := 7 },
                        payload := [8, 3, 1, 2, 3] }] :
          List RtpPacket).length then 64 else 0) +
        (if i = 0 ∧ true = true then 8 else 0)) ∧
      (Nat.testBit ((([{ header := { version := 2, marker := true,
                                     payloadType := 96,
                                     sequenceNumber := 65535,
                                     timestamp := 42, ssrc := 7 },
                         payload := [8, 3, 1, 2, 3] }] :
          List RtpPacket).get ⟨i, h⟩).payload.headD 0) 3 = true ↔
        (i = 0 ∧ true = true)) ∧
      (Nat.testBit ((([{ header := { version := 2, marker := true,
                                     payloadType := 96,
                                     sequenceNumber := 65535,
                                     timestamp := 42, ssrc := 7 },
                         payload := [8, 3, 1, 2, 3] }] :
          List RtpPacket).get ⟨i, h⟩).payload.headD 0) 6 = true ↔
        i + 1 < ([{ header := { version := 2, marker := true,
                                payloadType := 96, sequenceNumber := 65535,
                                timestamp := 42, ssrc := 7 },
                    payload := [8, 3, 1, 2, 3] }] :
          List RtpPacket).length) ∧
      (Nat.testBit ((([{ header := { version := 2, marker := true,
                                     payloadType := 96,
                                     sequenceNumber := 65535,
                                     timestamp := 42, ssrc := 7 },
                         payload := [8, 3, 1, 2, 3] }] :
          List RtpPacket).get ⟨i, h⟩).payload.headD 0) 7 = true ↔
        0 < i)) :=
  ⟨by decide,
   c6_amended
     { payloadType := 96, ssrc := 7, payloadMaxSize := 1460,
       sequenceNumber := 65535 } true 42 [[1, 2, 3]] _ 0 (by decide)⟩

/-! ## Payload-size lemmas for the packetizer -/

theorem encodeObu_done_mono (pt ts ssrc maxSize : Nat) :
    ∀ (fuel : Nat) (obu : List Nat) (s s' : EncState),
      encodeObu pt ts ssrc maxSize fuel obu s = some s' →
      s.done.length ≤ s'.done.length := by
  intro fuel
  induction fuel with
  | zero =>
    intro obu s s' h
    simp [encodeObu] at h
  | succ n ih =>
    intro obu s s' h
    rw [encodeObu_succ] at h
    split at h
    · injection h with h'
      subst h'
      exact le_rfl
    · have := ih _ _ _ h
      simp only [fragStep, List.length_append, List.length_cons,
        List.length_nil] at this
      omega

theorem encodeObu_lensOK (pt ts ssrc maxSize : Nat)
    (h1max : 1 ≤ maxSize) (hmax : maxSize ≤ 16386) :
    ∀ (fuel : Nat) (obu : List Nat) (s s' : EncState),
      encodeObu pt ts ssrc maxSize fuel obu s = some s' →
      lensOK maxSize s → lensOK maxSize s' := by
  intro fuel
  induction fuel with
  | zero =>
    intro obu s s' h hl
    simp [encodeObu] at h
  | succ n ih =>
    intro obu s s' h hl
    obtain ⟨hcl, hone, hbound, hdone⟩ := hl
    rw [encodeObu_succ] at h
    split at h
    · rename_i hc
      injection h with h'
      subst h'
      have hobu : obu.length ≤ 16383 := by omega
      have hle : (LEB128Marshal obu.length).length ≤ 2 :=
        LEB128Marshal_length_le_two _ (by omega)
      refine ⟨?_, ?_, ?_, hdone⟩
      · show (appendBytes (LEB128Marshal obu.length ++ obu)
          s.cur).payload.length =
          s.curPayloadLen + (LEB128Marshal obu.length).length + obu.length
        rw [appendBytes_payload]
        simp only [List.length_append]
        omega
      · show 1 ≤ s.curPayloadLen + (LEB128Marshal obu.length).length +
          obu.length
        omega
      · show s.curPayloadLen + (LEB128Marshal obu.length).length +
          obu.length ≤ maxSize
        omega
    · rename_i hc
      refine ih _ _ _ h ⟨rfl, le_rfl, h1max, ?_⟩
      intro p hp
      simp only [fragStep] at hp
      rcases List.mem_append.mp hp with hp1 | hp2
      · exact hdone p hp1
      · have hpe : p = orFirstByte 64
            (fragCur ((maxSize : Int) - (s.curPayloadLen : Int)) obu
              s.cur) := List.mem_singleton.mp hp2
        subst hpe
        rw [orFirstByte_payload_length]
        unfold fragCur
        split
        · rename_i hav
          rw [appendBytes_payload]
          simp only [List.length_append, List.length_take]
          have htn : (((maxSize : Int) - (s.curPayloadLen : Int)) -
              2).toNat = maxSize - s.curPayloadLen - 2 := by omega
          have hfrag : maxSize - s.curPayloadLen - 2 ≤ 16383 := by omega
          have hle2 : (LEB128Marshal ((((maxSize : Int) -
              (s.curPayloadLen : Int)) - 2).toNat)).length ≤ 2 := by
            rw [htn]
            exact LEB128Marshal_length_le_two _ (by omega)
          rw [htn] at hle2 ⊢
          have hmin : min (maxSize - s.curPayloadLen - 2) obu.length =
              maxSize - s.curPayloadLen - 2 := by omega
          rw [hmin]
          omega
        · rw [hcl]
          exact hbound

theorem encodeObus_lensOK (pt ts ssrc maxSize : Nat)
    (h1max : 1 ≤ maxSize) (hmax : maxSize ≤ 16386) :
    ∀ (obus : List (List Nat)) (s s' : EncState),
      encodeObus pt ts ssrc maxSize obus s = some s' →
      lensOK maxSize s → lensOK maxSize s' := by
  intro obus
  induction obus with
  | nil =>
    intro s s' h hl
    simp only [encodeObus, Option.some.injEq] at h
    subst h
    exact hl
  | cons obu rest ih =>
    intro s s' h hl
    simp only [encodeObus] at h
    cases he : encodeObu pt ts ssrc maxSize (2 * obu.length + 3) obu s with
    | none => rw [he] at h; simp at h
    | some s2 =>
      rw [he] at h
      exact ih s2 s' h
        (encodeObu_lensOK pt ts ssrc maxSize h1max hmax _ _ _ _ he hl)

theorem encodeObu_fill (pt ts ssrc maxSize : Nat)
    (h131 : 131 ≤ maxSize) (hmax : maxSize ≤ 16386) :
    ∀ (fuel : Nat) (obu : List Nat) (s s' : EncState),
      s.curPayloadLen = 1 → s.cur.payload.length = 1 →
      encodeObu pt ts ssrc maxSize fuel obu s = some s' →
      (∀ p ∈ s'.done, p ∈ s.done ∨ p.payload.length = maxSize) ∧
      (maxSize < obu.length → s.done.length < s'.done.length) := by
  intro fuel
  induction fuel with
  | zero =>
    intro obu s s' hcur hclen h
    simp [encodeObu] at h
  | succ n ih =>
    intro obu s s' hcur hclen h
    rw [encodeObu_succ] at h
    split at h
    · rename_i hc
      injection h with h'
      subst h'
      refine ⟨fun p hp => Or.inl hp, ?_⟩
      intro hbig
      rw [hcur] at hc
      omega
    · rename_i hc
      rw [hcur] at hc h
      have hav : (2 : Int) < (maxSize : Int) - ((1 : Nat) : Int) := by
        push_cast
        omega
      obtain ⟨ihd, -⟩ := ih _ _ _ rfl (by simp [fragStep, mkPacket]) h
      have hmono := encodeObu_done_mono pt ts ssrc maxSize _ _ _ _ h
      constructor
      · intro p hp
        rcases ihd p hp with hp1 | hp2
        · simp only [fragStep] at hp1
          rcases List.mem_append.mp hp1 with hq1 | hq2
          · exact Or.inl hq1
          · refine Or.inr ?_
            have hpe : p = orFirstByte 64
                (fragCur ((maxSize : Int) - ((1 : Nat) : Int)) obu
                  s.cur) := List.mem_singleton.mp hq2
            subst hpe
            rw [orFirstByte_payload_length]
            unfold fragCur
            rw [if_pos hav, appendBytes_payload]
            simp only [List.length_append, List.length_take]
            have htn : (((maxSize : Int) - ((1 : Nat) : Int)) - 2).toNat =
                maxSize - 3 := by omega
            rw [htn]
            have hle2 : (LEB128Marshal (maxSize - 3)).length = 2 :=
              LEB128Marshal_two _ (by omega) (by omega)
            have hmin : min (maxSize - 3) obu.length = maxSize - 3 := by
              omega
            rw [hmin, hle2, hclen]
            omega
        · exact Or.inr hp2
      · intro _
        simp only [fragStep, List.length_append, List.length_cons,
          List.length_nil] at hmono
        omega

theorem kfTransform_get_payload_length (kf : Bool) (ps : List RtpPacket)
    (i : Nat) (h1 : i < (kfTransform kf ps).length) (h2 : i < ps.length) :
    ((kfTransform kf ps).get ⟨i, h1⟩).payload.length =
      (ps.get ⟨i, h2⟩).payload.length := by
  cases ps with
  | nil => simp at h2
  | cons P REST =>
    cases i with
    | zero =>
      rw [kfTransform_get_zero kf P REST h1]
      cases kf
      · rfl
      · rw [if_pos rfl, orFirstByte_payload_length]
        rfl
    | succ j =>
      rw [kfTransform_get_succ kf P REST j h1 (by simpa using h2)]
      rfl

/-! ## Claim C4 -/

/-- C4 amended: for maximum payload sizes of at most 16386 (which
includes the default 1460), every packet of a successful `Encode` has
a payload of at most the configured maximum; and for maximum sizes
between 131 and 16386, fragmenting one unit larger than the maximum
emits at least two packets with every packet except the last filled
exactly to capacity. -/
theorem c4_amended (e : Encoder) (kf : Bool) (ts : Nat)
    (obus : List (List Nat)) (ps : List RtpPacket) (q : Nat)
    (h1 : 1 ≤ e.payloadMaxSize) (h2 : e.payloadMaxSize ≤ 16386)
    (hE : Encoder.Encode e kf ts obus = some (ps, q)) :
    (∀ p ∈ ps, p.payload.length ≤ e.payloadMaxSize) ∧
    (131 ≤ e.payloadMaxSize →
      ∀ obu, obus = [obu] → e.payloadMaxSize < obu.length →
        2 ≤ ps.length ∧
        ∀ i (h : i < ps.length), i + 1 < ps.length →
          (ps.get ⟨i, h⟩).payload.length = e.payloadMaxSize) := by
  simp only [Encoder.Encode] at hE
  cases hs : encodeObus e.payloadType ts e.ssrc e.payloadMaxSize obus
      { done := [],
        cur := mkPacket e.payloadType ts e.ssrc e.sequenceNumber false,
        curPayloadLen := 1,
        seq := (e.sequenceNumber + 1) % 65536 } with
  | none => rw [hs] at hE; simp at hE
  | some s =>
    rw [hs] at hE
    simp only [Option.some.injEq, Prod.mk.injEq] at hE
    obtain ⟨hps, hq⟩ := hE
    subst hps
    have hl : lensOK e.payloadMaxSize s :=
      encodeObus_lensOK e.payloadType ts e.ssrc e.payloadMaxSize h1 h2
        obus _ s hs
        ⟨by simp [mkPacket], le_rfl, h1, by intro p hp; simp at hp⟩
    have hlen2 :
        (setMarkerLast (kfTransform kf (s.done ++ [s.cur]))).length =
          (s.done ++ [s.cur]).length := by
      rw [setMarkerLast_length, kfTransform_length]
    have hplen : ∀ i (h : i <
        (setMarkerLast (kfTransform kf (s.done ++ [s.cur]))).length),
        ∃ h2i : i < (s.done ++ [s.cur]).length,
        ((setMarkerLast (kfTransform kf (s.done ++ [s.cur]))).get
          ⟨i, h⟩).payload.length =
          ((s.done ++ [s.cur]).get ⟨i, h2i⟩).payload.length := by
      intro i h
      have h1i : i < (kfTransform kf (s.done ++ [s.cur])).length := by
        rw [setMarkerLast_length] at h
        exact h
      have h2i : i < (s.done ++ [s.cur]).length := by
        rw [kfTransform_length] at h1i
        exact h1i
      refine ⟨h2i, ?_⟩
      rw [setMarkerLast_get_payload _ i h1i h,
        kfTransform_get_payload_length kf _ i h1i h2i]
    constructor
    · intro p hp
      obtain ⟨⟨i, hi⟩, rfl⟩ := List.mem_iff_get.mp hp
      obtain ⟨h2i, hpl⟩ := hplen i hi
      rw [hpl]
      by_cases hlt : i < s.done.length
      · rw [get_append_lt s.done _ i hlt h2i]
        exact hl.2.2.2 _ (List.get_mem _ _ _)
      · have hie : i = s.done.length := by
          simp only [List.length_append, List.length_cons,
            List.length_nil] at h2i
          omega
        subst hie
        rw [get_append_last s.done _ h2i, hl.1]
        exact hl.2.2.1
    · intro h131 obu hobus hbig
      subst hobus
      simp only [encodeObus] at hs
      cases he2 : encodeObu e.payloadType ts e.ssrc e.payloadMaxSize
          (2 * obu.length + 3) obu
          { done := [],
            cur := mkPacket e.payloadType ts e.ssrc e.sequenceNumber
              false,
            curPayloadLen := 1,
            seq := (e.sequenceNumber + 1) % 65536 } with
      | none => rw [he2] at hs; simp at hs
      | some s2 =>
        rw [he2] at hs
        simp only [encodeObus, Option.some.injEq] at hs
        subst hs
        obtain ⟨hfill, hstrict⟩ :=
          encodeObu_fill e.payloadType ts e.ssrc e.payloadMaxSize h131 h2
            _ _ _ _ rfl (by simp [mkPacket]) he2
        have hpos : 0 < s2.done.length := by
          have := hstrict hbig
          simpa using this
        constructor
        · rw [hlen2]
          simp only [List.length_append, List.length_cons,
            List.length_nil]
          omega
        · intro i hi hi1
          obtain ⟨h2i, hpl⟩ := hplen i hi
          rw [hpl]
          have hilt : i < s2.done.length := by
            rw [hlen2] at hi1
            simp only [List.length_append, List.length_cons,
              List.length_nil] at hi1
            omega
          rw [get_append_lt s2.done _ i hilt h2i]
          rcases hfill _ (List.get_mem _ _ _) with hmem | hlen
          · simp at hmem
          · exact hlen


/-- `Encode` on a single OBU that fits the first packet (length prefix
included) emits exactly one packet holding the prefixed OBU. -/
theorem encode_single_small (e : Encoder) (kf : Bool) (ts : Nat)
    (obu : List Nat)
    (h : (obu.length : Int) + 2 ≤ (e.payloadMaxSize : Int) - 1) :
    Encoder.Encode e kf ts [obu] =
      some (setMarkerLast (kfTransform kf
        [appendBytes (LEB128Marshal obu.length ++ obu)
          (mkPacket e.payloadType ts e.ssrc e.sequenceNumber false)]),
        (e.sequenceNumber + 1) % 65536) := by
  simp only [Encoder.Encode, encodeObus]
  rw [show 2 * obu.length + 3 = (2 * obu.length + 2) + 1 from by omega]
  rw [encodeObu_succ]
  rw [if_pos (show ((obu.length : Int) + 2) ≤
      ((e.payloadMaxSize : Int) -
        ((({ done := [],
             cur := mkPacket e.payloadType ts e.ssrc e.sequenceNumber false,
             curPayloadLen := 1,
             seq := (e.sequenceNumber + 1) % 65536 } : EncState).curPayloadLen :
          Nat) : Int)) from by simpa using h)]
  rfl

/-- The payload length of the single packet of `encode_single_small`:
one aggregation-header byte, the LEB128 length prefix, and the OBU. -/
theorem encode_single_small_lengths (e : Encoder) (ts : Nat)
    (obu : List Nat)
    (h : (obu.length : Int) + 2 ≤ (e.payloadMaxSize : Int) - 1) :
    (Encoder.Encode e false ts [obu]).map
      (fun r => (r.1.map (fun p => p.payload.length), r.2)) =
      some ([obu.length + (LEB128Marshal obu.length).length + 1],
        (e.sequenceNumber + 1) % 65536) := by
  rw [encode_single_small e false ts obu h]
  simp only [Option.map_some', setMarkerLast, kfTransform,
    Bool.false_eq_true, if_false, List.map_cons, List.map_nil,
    appendBytes, mkPacket, List.length_append, List.length_cons,
    List.length_nil, Option.some.injEq, Prod.mk.injEq, List.cons.injEq,
    and_true, true_and]
  omega

/-- C4 counterexample: the claim fails in both directions. With
maximum 100, fragmenting one 200-byte OBU emits non-final packets of
99 bytes — the loop carves fragments of `avail - 2` bytes but their
one-byte LEB128 prefix fills only `avail - 1`, one short of capacity.
And with maximum 16387, one 16384-byte OBU is placed whole into a
single packet of 16388 bytes, exceeding the maximum: the loop budgets
2 bytes for the length prefix while `LEB128Marshal 16384` takes 3. -/
theorem c4_counterexample :
    ¬ claimC4 ∧
    (Encoder.Encode
        { payloadType := 0, ssrc := 0, payloadMaxSize := 16387,
          sequenceNumber := 0 } false 0 [List.replicate 16384 1]).map
      (fun r => (r.1.map (fun p => p.payload.length), r.2)) =
      some ([16388], 1) := by
  constructor
  · intro hc
    have hx := (hc
        { payloadType := 0, ssrc := 0, payloadMaxSize := 100,
          sequenceNumber := 0 } false 0 [List.replicate 200 1]
        [{ header := { version := 2, marker := false, payloadType := 0,
                       sequenceNumber := 0, timestamp := 0, ssrc := 0 },
           payload := 64 :: 97 :: List.replicate 97 1 },
         { header := { version := 2, marker := false, payloadType := 0,
                       sequenceNumber := 1, timestamp := 0, ssrc := 0 },
           payload := 192 :: 97 :: List.replicate 97 1 },
         { header := { version := 2, marker := true, payloadType := 0,
                       sequenceNumber := 2, timestamp := 0, ssrc := 0 },
           payload := 128 :: 6 :: List.replicate 6 1 }] 3
        (by decide)).2 (List.replicate 200 1) rfl (by decide) 0
        (by decide) (by decide)
    exact absurd hx (by decide)
  · conv_lhs =>
      rw [encode_single_small_lengths
        { payloadType := 0, ssrc := 0, payloadMaxSize := 16387,
          sequenceNumber := 0 } 0 (List.replicate 16384 1)
        (by norm_num [List.length_replicate])]
    simp only [List.length_replicate]
    norm_num [show (LEB128Marshal 16384).length = 3 from by decide]

/-- Witness for C4 (amended): with maximum 140 one 200-byte OBU yields
two packets, the first filled to exactly 140 bytes, both within the
maximum. -/
theorem c4_amended_witness :
    1 ≤ 140 ∧ 140 ≤ 16386 ∧
    (∀ p ∈ ([{ header := { version := 2, marker := false, payloadType := 0,
                           sequenceNumber := 0, timestamp := 0, ssrc := 0 },
               payload := 64 :: 137 :: 1 :: List.replicate 137 1 },
             { header := { version := 2, marker := true, payloadType := 0,
                           sequenceNumber := 1, timestamp := 0, ssrc := 0 },
               payload := 128 :: 63 :: List.replicate 63 1 }] :
          List RtpPacket),
      p.payload.length ≤ 140) :=
  ⟨by decide, by decide,
    (c4_amended
      { payloadType := 0, ssrc := 0, payloadMaxSize := 140,
        sequenceNumber := 0 } false 0 [List.replicate 200 1]
      [{ header := { version := 2, marker := false, payloadType := 0,
                     sequenceNumber := 0, timestamp := 0, ssrc := 0 },
         payload := 64 :: 137 :: 1 :: List.replicate 137 1 },
       { header := { version := 2, marker := true, payloadType := 0,
                     sequenceNumber := 1, timestamp := 0, ssrc := 0 },
         payload := 128 :: 63 :: List.replicate 63 1 }] 2
      (by decide) (by decide) (by decide)).1⟩
